import Mathlib

/-!
# Amlogic video decoder: session helpers and the H.264 codec glue

A shallow embedding of `drivers/media/platform/meson/vdec/vdec_helpers.c` and
`drivers/media/platform/meson/vdec/codec_h264.c`.

* `u32` values are natural numbers reduced `% 2 ^ 32` wherever the C code can wrap.
* `s32` values are integers; a result that C stores in an `s32` goes through `toS32`
  (two's complement wrap-around, which is what the kernel is built with).
* Intrusive kernel lists are Lean lists, head first.
* Spin locks are not modelled: every function below runs to completion on its own.
-/

namespace Vdec

/-! ## Machine integers -/

/-- Conversion of an integer to `u32`: reduction modulo `2 ^ 32`. -/
def toU32 (x : Int) : Nat := (x % 4294967296).toNat

/-- Conversion of an integer to `s32`: two's complement wrap-around. -/
def toS32 (x : Int) : Int :=
  let r := x % 4294967296
  if r < 2147483648 then r else r - 4294967296

/-- Decrement of an `atomic_t` (a 32-bit signed counter). -/
def atomic_dec (c : Int) : Int := toS32 (c - 1)

/-- Modelled from the spec: the kernel macro `ALIGN(x, a)` (not under src) rounds a `u32`
up to the next multiple of `a`; the addition is done in `u32`. -/
def ALIGN (x a : Nat) : Nat := ((x + (a - 1)) % 4294967296) / a * a

/-- Modelled from the spec: the kernel macro `GENMASK(h, l)` (not under src), the word whose
bits `l..h` are set. -/
def GENMASK (h l : Nat) : Nat := 2 ^ (h + 1) - 2 ^ l

/-- Modelled from the spec: the kernel macro `BIT(n)` (not under src). -/
def BIT (n : Nat) : Nat := 2 ^ n

def SZ_1K : Nat := 1024
def SZ_4K : Nat := 4096
def SZ_64K : Nat := 65536

/-! ## Data model -/

/-- The `struct amvdec_timestamp`: one ledger entry (`u64 ts`, `s32 offset`). -/
structure amvdec_timestamp where
  ts : Nat
  offset : Int
  deriving DecidableEq, Repr

/-- Capture pixel formats distinguished by the code (`sess->pixfmt_cap`). -/
inductive v4l2_pix_fmt where
  | NV12M
  | YUV420M
  | AM21C
  | other (fourcc : Nat)
  deriving DecidableEq, Repr

/-- Field orders used by the code. -/
inductive v4l2_field where
  | NONE
  | INTERLACED_TB
  | INTERLACED_BT
  deriving DecidableEq, Repr

/-- Final state handed to `v4l2_m2m_buf_done`. -/
inductive vb2_buffer_state where
  | DONE
  | ERROR
  deriving DecidableEq, Repr

/-- The parts of a `struct vb2_v4l2_buffer` the code reads or writes.
`flag_last` is the `V4L2_BUF_FLAG_LAST` bit of `flags`. -/
structure vb2_v4l2_buffer where
  index : Nat
  bytesused : List Nat
  plane_dma_addr : List Nat
  timestamp : Nat
  sequence : Nat
  flag_last : Bool
  field : v4l2_field
  deriving DecidableEq, Repr

/-- Events queued on the file handle. -/
inductive v4l2_event where
  | EOS
  deriving DecidableEq, Repr

/-- One `meson_canvas_config` call: canvas id, plane address, width, height. -/
structure canvas_config where
  id : Nat
  paddr : Nat
  width : Nat
  height : Nat
  deriving DecidableEq, Repr

/-- The `struct amvdec_core`: the DOS register window (`dos_base + reg`) and the canvas
provider. -/
structure amvdec_core where
  dos : Nat → Nat
  canvas_free : List Nat
  canvas_cfg : List canvas_config

/-- The `struct codec_h264`: the four DMA regions. A virtual address is modelled by whether
it is set (for the firmware: by the bytes it holds). -/
structure codec_h264 where
  ext_fw_vaddr : Option (List Nat)
  ext_fw_paddr : Nat
  workspace_vaddr : Bool
  workspace_paddr : Nat
  ref_vaddr : Bool
  ref_paddr : Nat
  ref_size : Nat
  sei_vaddr : Bool
  sei_paddr : Nat
  deriving DecidableEq, Repr

/-- The `struct amvdec_session`.
`dst_bufs` is the destination queue of `m2m_ctx`, `buf_done` the calls of
`v4l2_m2m_buf_done` (most recent first), `events` the events queued on `fh` (most recent
first), `queue_work` the number of `schedule_work` calls, `aborted` whether
`vb2_queue_error` was called on the two queues. -/
structure amvdec_session where
  core : amvdec_core
  timestamps : List amvdec_timestamp
  esparser_queued_bufs : Int
  vififo_size : Nat
  should_stop : Bool
  keyframe_found : Nat
  sequence_cap : Nat
  pixfmt_cap : v4l2_pix_fmt
  width : Nat
  height : Nat
  pixelaspect : Nat × Nat
  canvas_num : Nat
  canvas_alloc : List Nat
  priv : Option codec_h264
  dst_bufs : List vb2_v4l2_buffer
  buf_done : List (vb2_v4l2_buffer × vb2_buffer_state)
  events : List v4l2_event
  queue_work : Nat
  aborted : Bool

/-- Declarations of this repository that are not under src: the register offsets of
`dos_regs.h` used by the code, and `MAX_CANVAS`. -/
structure vdec_env where
  AV_SCRATCH_0 : Nat
  AV_SCRATCH_1 : Nat
  AV_SCRATCH_4 : Nat
  AV_SCRATCH_7 : Nat
  AV_SCRATCH_8 : Nat
  AV_SCRATCH_A : Nat
  AV_SCRATCH_D : Nat
  AV_SCRATCH_F : Nat
  AV_SCRATCH_G : Nat
  AV_SCRATCH_I : Nat
  AV_SCRATCH_J : Nat
  ANC0_CANVAS_ADDR : Nat
  POWER_CTL_VLD : Nat
  MDEC_PIC_DC_THRESH : Nat
  ASSIST_MBOX1_CLR_REG : Nat
  MAX_CANVAS : Nat

/-! ## Register access -/

/-- A register read returns a `u32`. -/
def amvdec_read_dos (core : amvdec_core) (reg : Nat) : Nat := core.dos reg % 4294967296

def amvdec_write_dos (core : amvdec_core) (reg val : Nat) : amvdec_core :=
  { core with dos := Function.update core.dos reg (val % 4294967296) }

def amvdec_write_dos_bits (core : amvdec_core) (reg val : Nat) : amvdec_core :=
  amvdec_write_dos core reg (amvdec_read_dos core reg ||| val)

/-! ## Output sizes -/

/-- Size of the compressed body: 4 KiB per 64x32 block. -/
def amvdec_am21c_body_size (width height : Nat) : Nat :=
  let width_64 := ALIGN width 64 / 64
  let height_32 := ALIGN height 32 / 32
  (SZ_4K * width_64 * height_32) % 4294967296

/-- Size of the compressed header: 32 bytes per 128x64 block. -/
def amvdec_am21c_head_size (width height : Nat) : Nat :=
  let width_128 := ALIGN width 128 / 128
  let height_64 := ALIGN height 64 / 64
  (32 * width_128 * height_64) % 4294967296

def amvdec_am21c_size (width height : Nat) : Nat :=
  ALIGN ((amvdec_am21c_body_size width height + amvdec_am21c_head_size width height)
    % 4294967296) SZ_64K

/-- Modelled from the spec: `amvdec_get_output_size` is declared outside src; the spec gives
the output size of a frame as width times height (a `u32`). -/
def amvdec_get_output_size (sess : amvdec_session) : Nat :=
  (sess.width * sess.height) % 4294967296

/-! ## The timestamp ledger -/

/-- The list walk of `amvdec_add_ts_reorder`: the new entry goes right before the first
entry `tmp` with `ts <= tmp->ts`, or at the tail when there is none (this also covers the
`list_empty` shortcut). -/
def add_ts_walk (new_ts : amvdec_timestamp) : List amvdec_timestamp → List amvdec_timestamp
  | [] => [new_ts]
  | tmp :: rest =>
    if new_ts.ts ≤ tmp.ts then new_ts :: tmp :: rest
    else tmp :: add_ts_walk new_ts rest

def amvdec_add_ts_reorder (sess : amvdec_session) (ts : Nat) (offset : Int) :
    amvdec_session :=
  { sess with timestamps := add_ts_walk ⟨ts, offset⟩ sess.timestamps }

/-- Unlink the head of the ledger and decrement the pending-buffer counter; nothing happens
on an empty ledger. The head is the first list node, whatever struct `list_first_entry`
names. -/
def amvdec_rm_first_ts (sess : amvdec_session) : amvdec_session :=
  match sess.timestamps with
  | [] => sess
  | _ :: rest =>
    { sess with timestamps := rest
                esparser_queued_bufs := atomic_dec sess.esparser_queued_bufs }

/-- The list walk of `amvdec_remove_ts`: unlink the first entry carrying `ts`. -/
def remove_ts_walk (ts : Nat) : List amvdec_timestamp → List amvdec_timestamp
  | [] => []
  | tmp :: rest => if tmp.ts = ts then rest else tmp :: remove_ts_walk ts rest

def amvdec_remove_ts (sess : amvdec_session) (ts : Nat) : amvdec_session :=
  { sess with timestamps := remove_ts_walk ts sess.timestamps }

/-! ## Buffer completion -/

def v4l2_m2m_buf_done (sess : amvdec_session) (vbuf : vb2_v4l2_buffer)
    (state : vb2_buffer_state) : amvdec_session :=
  { sess with buf_done := (vbuf, state) :: sess.buf_done }

/-- The `switch (sess->pixfmt_cap)` of `dst_buf_done`: per-plane byte counts. -/
def set_bytesused (sess : amvdec_session) (planes : List Nat) : List Nat :=
  let output_size := amvdec_get_output_size sess
  match sess.pixfmt_cap with
  | .NV12M => (planes.set 0 output_size).set 1 (output_size / 2)
  | .YUV420M => ((planes.set 0 output_size).set 1 (output_size / 4)).set 2 (output_size / 4)
  | .AM21C => planes.set 0 (amvdec_am21c_size sess.width sess.height)
  | .other _ => planes

def dst_buf_done (sess : amvdec_session) (vbuf : vb2_v4l2_buffer) (field : v4l2_field)
    (timestamp : Nat) : amvdec_session :=
  let vbuf := { vbuf with bytesused := set_bytesused sess vbuf.bytesused }
  let vbuf := { vbuf with timestamp := timestamp, sequence := sess.sequence_cap }
  let sess := { sess with sequence_cap := (sess.sequence_cap + 1) % 4294967296 }
  let sess := { sess with esparser_queued_bufs := atomic_dec sess.esparser_queued_bufs }
  let eos := sess.should_stop && sess.timestamps.isEmpty
  let sess := if eos then { sess with events := v4l2_event.EOS :: sess.events } else sess
  let vbuf := if eos then { vbuf with flag_last := true } else vbuf
  let vbuf := { vbuf with field := field }
  let sess := v4l2_m2m_buf_done sess vbuf .DONE
  { sess with queue_work := sess.queue_work + 1 }

def amvdec_dst_buf_done (sess : amvdec_session) (vbuf : vb2_v4l2_buffer)
    (field : v4l2_field) : amvdec_session :=
  match sess.timestamps with
  | [] => v4l2_m2m_buf_done sess vbuf .ERROR
  | tmp :: rest => dst_buf_done { sess with timestamps := rest } vbuf field tmp.ts

/-- State of the ledger when the scan of `amvdec_dst_buf_done_offset` leaves its loop:
`kept` are the entries walked over and left in the list, `found` is `match`, `rest` are
the entries behind `match` (never visited), `queued` is the pending-buffer counter. -/
structure offset_scan where
  kept : List amvdec_timestamp
  found : Option amvdec_timestamp
  rest : List amvdec_timestamp
  queued : Int
  deriving DecidableEq, Repr

/-- The `s32 delta = offset - tmp->offset` of the scan. -/
def ts_delta (offset : Int) (tmp : amvdec_timestamp) : Int := toS32 (offset - tmp.offset)

/-- The test `delta > (-1 * (s32)SZ_4K) && delta < SZ_4K`. -/
def within_wiggle (delta : Int) : Bool :=
  decide (delta > -1 * (SZ_4K : Int) ∧ delta < (SZ_4K : Int))

/-- The test `delta > 0 || delta < -1 * ((s32)sess->vififo_size / 2)`. -/
def is_stale (delta half : Int) : Bool := decide (delta > 0 ∨ delta < -1 * half)

/-- The `list_for_each_entry_safe` loop of `amvdec_dst_buf_done_offset`.
`offset` is the reduced offset, `half` is `(s32)sess->vififo_size / 2`. -/
def offset_scan_walk (offset half : Int) : List amvdec_timestamp → Int → offset_scan
  | [], queued => ⟨[], none, [], queued⟩
  | tmp :: n, queued =>
    let delta := ts_delta offset tmp
    if within_wiggle delta then
      ⟨[], some tmp, n, queued⟩
    else if is_stale delta half then
      offset_scan_walk offset half n (atomic_dec queued)
    else
      let r := offset_scan_walk offset half n queued
      { r with kept := tmp :: r.kept }

/-- The statement `offset %= sess->vififo_size`: the `s32` is converted to `u32`, reduced,
and stored back. The size must not be zero (the C code divides by it). -/
def reduce_offset (offset : Int) (vififo_size : Nat) : Int :=
  toS32 ((toU32 offset % vififo_size : Nat) : Int)

/-- The value `(s32)sess->vififo_size / 2` (C division truncates towards zero). -/
def half_vififo (vififo_size : Nat) : Int := (toS32 (vififo_size : Int)).tdiv 2

def amvdec_dst_buf_done_offset (sess : amvdec_session) (vbuf : vb2_v4l2_buffer)
    (offset : Int) (field : v4l2_field) : amvdec_session :=
  let offset := reduce_offset offset sess.vififo_size
  let r := offset_scan_walk offset (half_vififo sess.vififo_size) sess.timestamps
    sess.esparser_queued_bufs
  match r.found with
  | none =>
    v4l2_m2m_buf_done
      { sess with timestamps := r.kept, esparser_queued_bufs := r.queued } vbuf .ERROR
  | some m =>
    dst_buf_done
      { sess with timestamps := r.kept ++ r.rest, esparser_queued_bufs := r.queued }
      vbuf field m.ts

/-- Modelled from the spec: `v4l2_m2m_dst_buf_remove_by_idx` belongs to the buffer-queue
framework (not under src); it looks the pending destination buffer up by index and takes it
off the queue. -/
def v4l2_m2m_dst_buf_remove_by_idx (bufs : List vb2_v4l2_buffer) (idx : Nat) :
    Option (vb2_v4l2_buffer × List vb2_v4l2_buffer) :=
  match bufs.find? (fun b => b.index = idx) with
  | none => none
  | some b => some (b, bufs.erase b)

def amvdec_dst_buf_done_idx (sess : amvdec_session) (buf_idx : Nat) (offset : Int)
    (field : v4l2_field) : amvdec_session :=
  match v4l2_m2m_dst_buf_remove_by_idx sess.dst_bufs buf_idx with
  | none => amvdec_rm_first_ts sess
  | some (vbuf, bufs) =>
    let sess := { sess with dst_bufs := bufs }
    if offset ≥ 0 then amvdec_dst_buf_done_offset sess vbuf offset field
    else amvdec_dst_buf_done sess vbuf field

/-- Modelled from the spec: `gcd` comes with `linux/gcd.h` (not under src); it is the
greatest common divisor of its two unsigned arguments. -/
def gcd (a b : Nat) : Nat := Nat.gcd a b

/-- Division of the display aspect ratio by the frame geometry, reduced by the gcd. The two
products are `u32` values; their gcd must not be zero (the C code divides by it). -/
def amvdec_set_par_from_dar (sess : amvdec_session) (dar_num dar_den : Nat) :
    amvdec_session :=
  let numerator := (sess.height * dar_num) % 4294967296
  let denominator := (sess.width * dar_den) % 4294967296
  let div := gcd numerator denominator
  { sess with pixelaspect := (numerator / div, denominator / div) }

def amvdec_abort (sess : amvdec_session) : amvdec_session :=
  { sess with aborted := true }

/-! ## Canvases -/

def NUM_CANVAS_NV12 : Nat := 2
def NUM_CANVAS_YUV420 : Nat := 3
def EINVAL : Int := 22
def ENOMEM : Int := 12
def EBUSY : Int := 16

/-- Modelled from the spec: `meson_canvas_alloc` belongs to the canvas provider (not under
src); it hands out a free descriptor slot of its pool or fails when the pool is used up. -/
def meson_canvas_alloc (core : amvdec_core) : Int × Nat × amvdec_core :=
  match core.canvas_free with
  | [] => (-EBUSY, 0, core)
  | id :: free => (0, id % 256, { core with canvas_free := free })

/-- Modelled from the spec: `meson_canvas_config` belongs to the canvas provider (not under
src); it binds a slot to a plane address with the given geometry. -/
def meson_canvas_config (core : amvdec_core) (id paddr width height : Nat) : amvdec_core :=
  { core with canvas_cfg := ⟨id, paddr, width, height⟩ :: core.canvas_cfg }

def canvas_alloc (env : vdec_env) (sess : amvdec_session) : Int × Nat × amvdec_session :=
  if sess.canvas_num ≥ env.MAX_CANVAS then (-ENOMEM, 0, sess)
  else
    match meson_canvas_alloc sess.core with
    | (ret, id, core) =>
      if ret ≠ 0 then (ret, 0, sess)
      else (0, id, { sess with core := core
                               canvas_alloc := sess.canvas_alloc ++ [id]
                               canvas_num := sess.canvas_num + 1 })

/-- The allocation loop at the head of `set_canvas_yuv420m` and `set_canvas_nv12m`: it
stops at the first failure and keeps the slots taken so far. -/
def canvas_alloc_loop (env : vdec_env) : Nat → amvdec_session → Int × List Nat × amvdec_session
  | 0, sess => (0, [], sess)
  | k + 1, sess =>
    match canvas_alloc env sess with
    | (ret, id, sess1) =>
      if ret ≠ 0 then (ret, [], sess1)
      else
        match canvas_alloc_loop env k sess1 with
        | (ret2, ids, sess2) => (ret2, id :: ids, sess2)

def set_canvas_yuv420m (env : vdec_env) (sess : amvdec_session) (vb : vb2_v4l2_buffer)
    (width height reg : Nat) : Int × amvdec_session :=
  match canvas_alloc_loop env NUM_CANVAS_YUV420 sess with
  | (ret, canvas_id, sess) =>
    if ret ≠ 0 then (ret, sess)
    else
      let id0 := canvas_id.getD 0 0
      let id1 := canvas_id.getD 1 0
      let id2 := canvas_id.getD 2 0
      let core := meson_canvas_config sess.core id0 (vb.plane_dma_addr.getD 0 0) width height
      let core := meson_canvas_config core id1 (vb.plane_dma_addr.getD 1 0)
        (width / 2) (height / 2)
      let core := meson_canvas_config core id2 (vb.plane_dma_addr.getD 2 0)
        (width / 2) (height / 2)
      let core := amvdec_write_dos core reg ((id2 <<< 16) ||| (id1 <<< 8) ||| id0)
      (0, { sess with core := core })

def set_canvas_nv12m (env : vdec_env) (sess : amvdec_session) (vb : vb2_v4l2_buffer)
    (width height reg : Nat) : Int × amvdec_session :=
  match canvas_alloc_loop env NUM_CANVAS_NV12 sess with
  | (ret, canvas_id, sess) =>
    if ret ≠ 0 then (ret, sess)
    else
      let id0 := canvas_id.getD 0 0
      let id1 := canvas_id.getD 1 0
      let core := meson_canvas_config sess.core id0 (vb.plane_dma_addr.getD 0 0) width height
      let core := meson_canvas_config core id1 (vb.plane_dma_addr.getD 1 0) width (height / 2)
      let core := amvdec_write_dos core reg ((id1 <<< 16) ||| (id1 <<< 8) ||| id0)
      (0, { sess with core := core })

/-- The `v4l2_m2m_for_each_dst_buf` loop of `amvdec_set_canvases`; `reg_base` and `reg_num`
are zero-terminated arrays. -/
def set_canvases_walk (env : vdec_env) (pixfmt : v4l2_pix_fmt) (width height : Nat)
    (reg_base reg_num : List Nat) :
    List vb2_v4l2_buffer → Nat → Nat → amvdec_session → Int × amvdec_session
  | [], _, _, sess => (0, sess)
  | buf :: bufs, reg_num_cur, reg_base_cur, sess =>
    if reg_base.getD reg_base_cur 0 = 0 then (-EINVAL, sess)
    else
      let reg_cur := (reg_base.getD reg_base_cur 0 + reg_num_cur * 4) % 4294967296
      let r : Int × amvdec_session :=
        match pixfmt with
        | .NV12M => set_canvas_nv12m env sess buf width height reg_cur
        | .YUV420M => set_canvas_yuv420m env sess buf width height reg_cur
        | _ => (-EINVAL, sess)
      if r.1 ≠ 0 then r
      else
        let reg_num_cur := reg_num_cur + 1
        if reg_num_cur ≥ reg_num.getD reg_base_cur 0 then
          set_canvases_walk env pixfmt width height reg_base reg_num bufs 0
            (reg_base_cur + 1) r.2
        else
          set_canvases_walk env pixfmt width height reg_base reg_num bufs reg_num_cur
            reg_base_cur r.2

def amvdec_set_canvases (env : vdec_env) (sess : amvdec_session)
    (reg_base reg_num : List Nat) : Int × amvdec_session :=
  set_canvases_walk env sess.pixfmt_cap (ALIGN sess.width 64) (ALIGN sess.height 64)
    reg_base reg_num sess.dst_bufs 0 0 sess

/-! ## H.264 parameter negotiation -/

def MB_MV_SIZE : Nat := 96
def MB_TOTAL_BIT : Nat := 8
def MB_TOTAL_MASK : Nat := GENMASK 15 0
def MB_WIDTH_MASK : Nat := GENMASK 7 0
def MAX_REF_BIT : Nat := 24
def MAX_REF_MASK : Nat := GENMASK 6 0

/-- Modelled from the spec: `v4l2_m2m_num_dst_bufs_ready` belongs to the buffer-queue
framework (not under src); it counts the destination buffers that are ready. -/
def v4l2_m2m_num_dst_bufs_ready (sess : amvdec_session) : Nat :=
  sess.dst_bufs.length % 4294967296

/-- The `max_reference_size` field of the parsed status word. -/
def h264_max_reference_size (parsed_info : Nat) : Nat :=
  (parsed_info >>> MAX_REF_BIT) &&& MAX_REF_MASK

/-- The value `codec_h264_set_param` stores in `h264->ref_size`, as a function of the
parsed status word (whose width field is not zero). -/
def h264_ref_size (parsed_info : Nat) : Nat :=
  let mb_total := (parsed_info >>> MB_TOTAL_BIT) &&& MB_TOTAL_MASK
  let mb_width := parsed_info &&& MB_WIDTH_MASK
  let mb_height := mb_total / mb_width
  let max_reference_size := h264_max_reference_size parsed_info
  let mb_width := ALIGN mb_width 4
  let mb_height := ALIGN mb_height 4
  let mb_total := (mb_width * mb_height) % 4294967296
  let max_reference_size := (max_reference_size + 1) % 4294967296
  (mb_total * MB_MV_SIZE * max_reference_size) % 4294967296

/-- Configure the decoder once the first keyframe is parsed. `dma_alloc_coherent` is the
allocator: it maps a size to the physical address of the region, or to `none` when it
fails. The result is `none` where the C code traps: `sess->priv` unset, or a zero width
field (division by zero). -/
def codec_h264_set_param (env : vdec_env) (dma_alloc_coherent : Nat → Option Nat)
    (sess : amvdec_session) : Option amvdec_session :=
  match sess.priv with
  | none => none
  | some h264 =>
    let actual_dpb_size := v4l2_m2m_num_dst_bufs_ready sess
    let max_dpb_size := 4
    let sess := { sess with keyframe_found := 1 }
    let parsed_info := amvdec_read_dos sess.core env.AV_SCRATCH_1
    if parsed_info &&& MB_WIDTH_MASK = 0 then none
    else
      let max_reference_size := h264_max_reference_size parsed_info
      let sess := (amvdec_set_canvases env sess [env.ANC0_CANVAS_ADDR, 0] [24, 0]).2
      let max_dpb_size :=
        if max_reference_size > max_dpb_size then max_reference_size else max_dpb_size
      let max_reference_size := (max_reference_size + 1) % 4294967296
      let ref_size := h264_ref_size parsed_info
      match dma_alloc_coherent ref_size with
      | none =>
        some (amvdec_abort
          { sess with priv := some { h264 with ref_size := ref_size, ref_vaddr := false } })
      | some paddr =>
        let h264 := { h264 with ref_size := ref_size, ref_vaddr := true, ref_paddr := paddr }
        let core := amvdec_write_dos sess.core env.AV_SCRATCH_1 h264.ref_paddr
        let core := amvdec_write_dos core env.AV_SCRATCH_4 (h264.ref_paddr + h264.ref_size)
        let core := amvdec_write_dos core env.AV_SCRATCH_0
          (((max_reference_size <<< 24) % 4294967296) |||
           ((actual_dpb_size <<< 16) % 4294967296) |||
           ((max_dpb_size <<< 8) % 4294967296))
        some { sess with priv := some h264, core := core }

/-! ## H.264 interrupt handling -/

def SIZE_EXT_FW : Nat := 20 * SZ_1K
def CMD_MASK : Nat := GENMASK 7 0
def CMD_SET_PARAM : Nat := 1
def CMD_FRAMES_READY : Nat := 2
def CMD_FATAL_ERROR : Nat := 6
def CMD_BAD_WIDTH : Nat := 7
def CMD_BAD_HEIGHT : Nat := 8
def SEI_DATA_READY : Nat := BIT 15
def PIC_TOP_BOT : Nat := 5
def PIC_BOT_TOP : Nat := 6
def PIC_STRUCT_BIT : Nat := 5
def PIC_STRUCT_MASK : Nat := GENMASK 2 0
def BUF_IDX_MASK : Nat := GENMASK 4 0
def ERROR_MASK : Nat := BIT 9
def OFFSET_BIT : Nat := 16
def OFFSET_MASK : Nat := GENMASK 15 0

def codec_h264_can_recycle (env : vdec_env) (core : amvdec_core) : Bool :=
  decide (amvdec_read_dos core env.AV_SCRATCH_7 = 0) ||
    decide (amvdec_read_dos core env.AV_SCRATCH_8 = 0)

/-- Tell the decoder it can recycle the buffer: the index plus one goes into
`AV_SCRATCH_7` when that register reads zero, into `AV_SCRATCH_8` otherwise. -/
def codec_h264_recycle (env : vdec_env) (core : amvdec_core) (buf_idx : Nat) : amvdec_core :=
  if amvdec_read_dos core env.AV_SCRATCH_7 = 0 then
    amvdec_write_dos core env.AV_SCRATCH_7 (buf_idx + 1)
  else
    amvdec_write_dos core env.AV_SCRATCH_8 (buf_idx + 1)

/-- Requests made to the allocators. -/
inductive alloc_request where
  | kzalloc
  | dma_coherent (size : Nat)
  deriving DecidableEq, Repr

/-- Load the extended firmware. `kzalloc` tells whether the allocation of the codec state
succeeds, `dma_alloc_coherent` is the DMA allocator, `data` holds the bytes of the blob
(at least `len` of them). The result is the return value, the requests made to the
allocators in order, and the session. -/
def codec_h264_load_extended_firmware (kzalloc : Bool)
    (dma_alloc_coherent : Nat → Option Nat) (sess : amvdec_session) (data : List Nat)
    (len : Nat) : Int × List alloc_request × amvdec_session :=
  if len < SIZE_EXT_FW then (-EINVAL, [], sess)
  else if !kzalloc then (-ENOMEM, [.kzalloc], sess)
  else
    match dma_alloc_coherent SIZE_EXT_FW with
    | none => (-ENOMEM, [.kzalloc, .dma_coherent SIZE_EXT_FW], sess)
    | some paddr =>
      let h264 : codec_h264 :=
        { ext_fw_vaddr := some (data.take SIZE_EXT_FW)
          ext_fw_paddr := paddr
          workspace_vaddr := false
          workspace_paddr := 0
          ref_vaddr := false
          ref_paddr := 0
          ref_size := 0
          sei_vaddr := false
          sei_paddr := 0 }
      (0, [.kzalloc, .dma_coherent SIZE_EXT_FW], { sess with priv := some h264 })

/-- The offset is split in half in two different registers: frame `frame_num` takes the
high half of register `frame_num / 2` when it is odd, and the low half, moved to the
high half, when it is even. The result is an `s32`. -/
def get_offset_msb (env : vdec_env) (core : amvdec_core) (frame_num : Nat) : Int :=
  let take_msb := frame_num % 2
  let reg_offset := (frame_num / 2) * 4
  let offset_msb := amvdec_read_dos core ((env.AV_SCRATCH_A + reg_offset) % 4294967296)
  if take_msb ≠ 0 then toS32 ((offset_msb &&& 0xffff0000 : Nat) : Int)
  else toS32 ((((offset_msb &&& 0x0000ffff) <<< 16) % 4294967296 : Nat) : Int)

/-- What the body of the loop of `codec_h264_frames_ready` hands to
`amvdec_dst_buf_done_idx` for frame `i`: buffer index, offset, field. -/
def h264_frame_args (env : vdec_env) (core : amvdec_core) (i : Nat) :
    Nat × Int × v4l2_field :=
  let frame_status := amvdec_read_dos core ((env.AV_SCRATCH_1 + i * 4) % 4294967296)
  let buffer_index := frame_status &&& BUF_IDX_MASK
  let pic_struct := (frame_status >>> PIC_STRUCT_BIT) &&& PIC_STRUCT_MASK
  let offset : Int := (((frame_status >>> OFFSET_BIT) &&& OFFSET_MASK : Nat) : Int)
  let field :=
    if pic_struct = PIC_TOP_BOT then v4l2_field.INTERLACED_TB
    else if pic_struct = PIC_BOT_TOP then v4l2_field.INTERLACED_BT
    else v4l2_field.NONE
  let offset := toS32 ((toU32 offset ||| toU32 (get_offset_msb env core i) : Nat) : Int)
  (buffer_index, offset, field)

/-- One turn of the loop of `codec_h264_frames_ready`. -/
def h264_frame_done (env : vdec_env) (sess : amvdec_session) (i : Nat) : amvdec_session :=
  let args := h264_frame_args env sess.core i
  amvdec_dst_buf_done_idx sess args.1 args.2.1 args.2.2

/-- The head of `codec_h264_frames_ready`: a non-zero error count in `AV_SCRATCH_D` is
logged and the register is cleared. -/
def h264_ack_errors (env : vdec_env) (core : amvdec_core) : amvdec_core :=
  let error_count := toS32 ((amvdec_read_dos core env.AV_SCRATCH_D : Nat) : Int)
  if error_count ≠ 0 then amvdec_write_dos core env.AV_SCRATCH_D 0 else core

def codec_h264_frames_ready (env : vdec_env) (sess : amvdec_session) (status : Nat) :
    amvdec_session :=
  let num_frames := (status >>> 8) &&& 0xff
  let sess := { sess with core := h264_ack_errors env sess.core }
  (List.range num_frames).foldl (h264_frame_done env) sess

/-- The tail of `codec_h264_threaded_isr`: clear the status register when a command other
than set-parameters was seen, then acknowledge the SEI flag. -/
def h264_isr_finish (env : vdec_env) (core : amvdec_core) (cmd : Nat) : amvdec_core :=
  let core :=
    if cmd ≠ 0 ∧ cmd ≠ CMD_SET_PARAM then amvdec_write_dos core env.AV_SCRATCH_0 0
    else core
  if amvdec_read_dos core env.AV_SCRATCH_J &&& SEI_DATA_READY ≠ 0 then
    amvdec_write_dos core env.AV_SCRATCH_J 0
  else core

/-- The threaded interrupt handler; it always returns `IRQ_HANDLED`. The result is `none`
where `codec_h264_set_param` traps. -/
def codec_h264_threaded_isr (env : vdec_env) (dma_alloc_coherent : Nat → Option Nat)
    (sess : amvdec_session) : Option amvdec_session :=
  let status := amvdec_read_dos sess.core env.AV_SCRATCH_0
  let cmd := (status &&& CMD_MASK) % 256
  if cmd = CMD_SET_PARAM then
    match codec_h264_set_param env dma_alloc_coherent sess with
    | none => none
    | some sess => some { sess with core := h264_isr_finish env sess.core cmd }
  else if cmd = CMD_FRAMES_READY then
    let sess := codec_h264_frames_ready env sess status
    some { sess with core := h264_isr_finish env sess.core cmd }
  else if cmd = CMD_FATAL_ERROR ∨ cmd = CMD_BAD_WIDTH ∨ cmd = CMD_BAD_HEIGHT then
    some (amvdec_abort sess)
  else
    some { sess with core := h264_isr_finish env sess.core cmd }

def codec_h264_isr (env : vdec_env) (sess : amvdec_session) : amvdec_session :=
  { sess with core := amvdec_write_dos sess.core env.ASSIST_MBOX1_CLR_REG 1 }

/-! ## Sample states -/

/-- A register file holding `word` in every register, and an empty canvas pool. -/
def sample_core (word : Nat) : amvdec_core := ⟨fun _ => word, [], []⟩

/-- A session that has just started: the given FIFO size and ledger, nothing completed. -/
def sample_session (vififo_size : Nat) (timestamps : List amvdec_timestamp) :
    amvdec_session :=
  { core := sample_core 0
    timestamps := timestamps
    esparser_queued_bufs := (timestamps.length : Int)
    vififo_size := vififo_size
    should_stop := false
    keyframe_found := 0
    sequence_cap := 0
    pixfmt_cap := .NV12M
    width := 1920
    height := 1080
    pixelaspect := (1, 1)
    canvas_num := 0
    canvas_alloc := []
    priv := none
    dst_bufs := []
    buf_done := []
    events := []
    queue_work := 0
    aborted := false }

/-- A capture buffer with three empty planes. -/
def sample_buffer (index : Nat) : vb2_v4l2_buffer :=
  ⟨index, [0, 0, 0], [0, 0, 0], 0, 0, false, .NONE⟩

/-- A codec state right after the firmware load: no region but the firmware is set. -/
def sample_h264 : codec_h264 :=
  ⟨some [], 0, false, 0, false, 0, 0, false, 0⟩

/-- A session waiting for its first keyframe: every register reads `word`, the codec state
is `sample_h264`, and `bufs` are the destination buffers that are ready. -/
def sample_h264_session (word : Nat) (bufs : List vb2_v4l2_buffer) : amvdec_session :=
  { sample_session 100000 [] with
    core := sample_core word
    priv := some sample_h264
    dst_bufs := bufs }

/-- Register offsets used for the sample states. -/
def sample_env : vdec_env :=
  ⟨0, 4, 16, 28, 32, 40, 52, 60, 64, 72, 76, 128, 256, 260, 264, 96⟩

/-! ## Machine-integer facts -/

theorem toS32_of_range (x : Int) (h1 : -2147483648 ≤ x) (h2 : x < 2147483648) :
    toS32 x = x := by
  unfold toS32
  simp only
  split <;> omega

theorem reduce_offset_eq (offset : Int) (size : Nat) (h0 : 0 ≤ offset)
    (h1 : offset < 2147483648) :
    reduce_offset offset size = offset % (size : Int) := by
  unfold reduce_offset toU32
  have hmod : offset % 4294967296 = offset := Int.emod_eq_of_lt h0 (by omega)
  rw [hmod]
  have hcast : ((offset.toNat % size : Nat) : Int) = offset % (size : Int) := by
    rw [Int.natCast_mod, Int.toNat_of_nonneg h0]
  have hle : offset.toNat % size ≤ offset.toNat := Nat.mod_le _ _
  rw [← hcast]
  exact toS32_of_range _ (by omega) (by omega)

theorem reduce_offset_range (offset : Int) (size : Nat) (h0 : 0 ≤ offset)
    (h1 : offset < 2147483648) :
    0 ≤ offset % (size : Int) ∧ offset % (size : Int) < 2147483648 := by
  have hcast : ((offset.toNat % size : Nat) : Int) = offset % (size : Int) := by
    rw [Int.natCast_mod, Int.toNat_of_nonneg h0]
  have hle : offset.toNat % size ≤ offset.toNat := Nat.mod_le _ _
  rw [← hcast]
  omega

theorem half_vififo_eq (size : Nat) (h : size < 2147483648) :
    half_vififo size = (size : Int) / 2 := by
  unfold half_vififo
  rw [toS32_of_range _ (by omega) (by omega)]
  exact Int.tdiv_eq_ediv (by omega) (by omega)

theorem within_wiggle_iff (q : Int) (e : amvdec_timestamp) (hq0 : 0 ≤ q)
    (hq1 : q < 2147483648) (he0 : 0 ≤ e.offset) (he1 : e.offset < 2147483648) :
    within_wiggle (ts_delta q e) = true ↔ |q - e.offset| < 4096 := by
  unfold within_wiggle ts_delta SZ_4K
  rw [toS32_of_range _ (by omega) (by omega), abs_lt]
  simp only [decide_eq_true_eq]
  constructor <;> intro h <;> constructor <;> omega

theorem is_stale_iff (q half : Int) (e : amvdec_timestamp) (hq0 : 0 ≤ q)
    (hq1 : q < 2147483648) (he0 : 0 ≤ e.offset) (he1 : e.offset < 2147483648) :
    is_stale (ts_delta q e) half = true ↔ (0 < q - e.offset ∨ q - e.offset < -half) := by
  unfold is_stale ts_delta
  rw [toS32_of_range _ (by omega) (by omega)]
  simp only [decide_eq_true_eq]
  constructor <;> intro h <;> rcases h with h | h
  · exact Or.inl (by omega)
  · exact Or.inr (by omega)
  · exact Or.inl (by omega)
  · exact Or.inr (by omega)

/-! ## The offset scan -/

/-- Shape of the scan result: the walked entries `pre` hold no entry within the wiggle
room, the kept ones are the walked entries that are not stale, and the scan either ran
through the whole list or stopped at the first entry within the wiggle room. -/
theorem offset_scan_walk_spec (q half : Int) (l : List amvdec_timestamp) (c : Int) :
    ∃ pre : List amvdec_timestamp,
      (∀ x ∈ pre, within_wiggle (ts_delta q x) = false) ∧
      (offset_scan_walk q half l c).kept
        = pre.filter (fun x => !is_stale (ts_delta q x) half) ∧
      (((offset_scan_walk q half l c).found = none ∧
          (offset_scan_walk q half l c).rest = [] ∧ l = pre) ∨
        ∃ m, (offset_scan_walk q half l c).found = some m ∧
          within_wiggle (ts_delta q m) = true ∧
          l = pre ++ m :: (offset_scan_walk q half l c).rest) := by
  induction l generalizing c with
  | nil => exact ⟨[], by simp, by simp [offset_scan_walk], Or.inl (by simp [offset_scan_walk])⟩
  | cons tmp n ih =>
    by_cases hw : within_wiggle (ts_delta q tmp) = true
    · refine ⟨[], by simp, by simp [offset_scan_walk, hw], Or.inr ⟨tmp, ?_⟩⟩
      simp [offset_scan_walk, hw]
    · have hw2 : within_wiggle (ts_delta q tmp) = false := by simpa using hw
      by_cases hs : is_stale (ts_delta q tmp) half = true
      · obtain ⟨pre, hpre, hkept, hcase⟩ := ih (atomic_dec c)
        refine ⟨tmp :: pre, ?_, ?_, ?_⟩
        · intro x hx
          rcases List.mem_cons.mp hx with rfl | hx
          · exact hw2
          · exact hpre x hx
        · simp [offset_scan_walk, hw2, hs, hkept]
        · rcases hcase with ⟨h1, h2, h3⟩ | ⟨m, h1, h2, h3⟩
          · exact Or.inl ⟨by simp [offset_scan_walk, hw2, hs, h1],
              by simp [offset_scan_walk, hw2, hs, h2], by rw [h3]⟩
          · refine Or.inr ⟨m, by simp [offset_scan_walk, hw2, hs, h1], h2, ?_⟩
            simp only [offset_scan_walk, hw2, hs, if_true, Bool.false_eq_true, if_false]
            rw [List.cons_append, ← h3]
      · have hs2 : is_stale (ts_delta q tmp) half = false := by simpa using hs
        obtain ⟨pre, hpre, hkept, hcase⟩ := ih c
        refine ⟨tmp :: pre, ?_, ?_, ?_⟩
        · intro x hx
          rcases List.mem_cons.mp hx with rfl | hx
          · exact hw2
          · exact hpre x hx
        · simp [offset_scan_walk, hw2, hs2, hkept]
        · rcases hcase with ⟨h1, h2, h3⟩ | ⟨m, h1, h2, h3⟩
          · exact Or.inl ⟨by simp [offset_scan_walk, hw2, hs2, h1],
              by simp [offset_scan_walk, hw2, hs2, h2], by rw [h3]⟩
          · refine Or.inr ⟨m, by simp [offset_scan_walk, hw2, hs2, h1], h2, ?_⟩
            simp only [offset_scan_walk, hw2, hs2, Bool.false_eq_true, if_false]
            rw [List.cons_append, ← h3]

/-! ## Buffer completion facts -/

theorem dst_buf_done_timestamps (sess : amvdec_session) (vbuf : vb2_v4l2_buffer)
    (field : v4l2_field) (timestamp : Nat) :
    (dst_buf_done sess vbuf field timestamp).timestamps = sess.timestamps := by
  unfold dst_buf_done v4l2_m2m_buf_done
  simp only
  split <;> rfl

theorem dst_buf_done_buf_done (sess : amvdec_session) (vbuf : vb2_v4l2_buffer)
    (field : v4l2_field) (timestamp : Nat) :
    ∃ b, (dst_buf_done sess vbuf field timestamp).buf_done = (b, .DONE) :: sess.buf_done ∧
      b.timestamp = timestamp := by
  unfold dst_buf_done v4l2_m2m_buf_done
  simp only
  split <;> exact ⟨_, rfl, by simp⟩

/-- The two exits of `amvdec_dst_buf_done_offset`, in terms of the scan. -/
theorem dst_buf_done_offset_unfold (sess : amvdec_session) (vbuf : vb2_v4l2_buffer)
    (offset : Int) (field : v4l2_field) :
    let r := offset_scan_walk (reduce_offset offset sess.vififo_size)
      (half_vififo sess.vififo_size) sess.timestamps sess.esparser_queued_bufs
    (r.found = none ∧
      amvdec_dst_buf_done_offset sess vbuf offset field =
        v4l2_m2m_buf_done
          { sess with timestamps := r.kept, esparser_queued_bufs := r.queued } vbuf .ERROR) ∨
    (∃ m, r.found = some m ∧
      amvdec_dst_buf_done_offset sess vbuf offset field =
        dst_buf_done
          { sess with timestamps := r.kept ++ r.rest, esparser_queued_bufs := r.queued }
          vbuf field m.ts) := by
  intro r
  rcases hf : r.found with _ | m
  · left
    refine ⟨rfl, ?_⟩
    unfold amvdec_dst_buf_done_offset
    simp only
    rw [show (offset_scan_walk (reduce_offset offset sess.vififo_size)
      (half_vififo sess.vififo_size) sess.timestamps sess.esparser_queued_bufs).found = none
      from hf]
  · right
    refine ⟨m, rfl, ?_⟩
    unfold amvdec_dst_buf_done_offset
    simp only
    rw [show (offset_scan_walk (reduce_offset offset sess.vififo_size)
      (half_vififo sess.vififo_size) sess.timestamps sess.esparser_queued_bufs).found = some m
      from hf]

/-! ## Matching by offset -/

/-- The outcome of `amvdec_dst_buf_done_offset` on a ledger of non-negative `s32` offsets,
with `q` the reported offset reduced modulo the FIFO size: either no entry lies within the
wiggle room, the buffer is completed in error state and the ledger keeps the entries that
are not stale; or the ledger splits at the first entry `m` within the wiggle room, the
buffer is completed with the timestamp of `m`, and the ledger keeps the entries before `m`
that are not stale and all the entries behind `m`. -/
theorem dst_buf_done_offset_spec (sess : amvdec_session) (vbuf : vb2_v4l2_buffer)
    (offset : Int) (field : v4l2_field) (hoff0 : 0 ≤ offset) (hoff1 : offset < 2147483648)
    (hled : ∀ e ∈ sess.timestamps, 0 ≤ e.offset ∧ e.offset < 2147483648) :
    ((∀ x ∈ sess.timestamps, 4096 ≤ |offset % (sess.vififo_size : Int) - x.offset|) ∧
      ∃ c, amvdec_dst_buf_done_offset sess vbuf offset field =
        v4l2_m2m_buf_done
          { sess with
            timestamps := sess.timestamps.filter (fun x =>
              !is_stale (ts_delta (offset % (sess.vififo_size : Int)) x)
                (half_vififo sess.vififo_size))
            esparser_queued_bufs := c } vbuf .ERROR) ∨
    (∃ pre m post c, sess.timestamps = pre ++ m :: post ∧
      |offset % (sess.vififo_size : Int) - m.offset| < 4096 ∧
      (∀ x ∈ pre, 4096 ≤ |offset % (sess.vififo_size : Int) - x.offset|) ∧
      amvdec_dst_buf_done_offset sess vbuf offset field =
        dst_buf_done
          { sess with
            timestamps := pre.filter (fun x =>
              !is_stale (ts_delta (offset % (sess.vififo_size : Int)) x)
                (half_vififo sess.vififo_size)) ++ post
            esparser_queued_bufs := c } vbuf field m.ts) := by
  have hq := reduce_offset_eq offset sess.vififo_size hoff0 hoff1
  obtain ⟨hq0, hq1⟩ := reduce_offset_range offset sess.vififo_size hoff0 hoff1
  have hunf := dst_buf_done_offset_unfold sess vbuf offset field
  have hspec := offset_scan_walk_spec (reduce_offset offset sess.vififo_size)
    (half_vififo sess.vififo_size) sess.timestamps sess.esparser_queued_bufs
  rw [hq] at hunf hspec
  simp only at hunf
  obtain ⟨pre, hpre, hkept, hcase⟩ := hspec
  have hfar : ∀ x ∈ sess.timestamps,
      within_wiggle (ts_delta (offset % (sess.vififo_size : Int)) x) = false →
      4096 ≤ |offset % (sess.vififo_size : Int) - x.offset| := by
    intro x hx hw
    by_contra hlt
    have h2 := (within_wiggle_iff _ x hq0 hq1 (hled x hx).1 (hled x hx).2).mpr
      (not_le.mp hlt)
    rw [hw] at h2
    cases h2
  rcases hcase with ⟨hnone, -, hl⟩ | ⟨m, hm, hwin, hl⟩
  · left
    rcases hunf with ⟨-, heq⟩ | ⟨m, hm, -⟩
    · refine ⟨fun x hx => hfar x hx (hpre x (hl ▸ hx)), (offset_scan_walk (offset % (sess.vififo_size : Int))
        (half_vififo sess.vififo_size) sess.timestamps sess.esparser_queued_bufs).queued, ?_⟩
      rw [heq, hkept, ← hl]
    · rw [hnone] at hm
      cases hm
  · right
    rcases hunf with ⟨hnone, -⟩ | ⟨m2, hm2, heq⟩
    · rw [hnone] at hm
      cases hm
    · rw [hm] at hm2
      cases hm2
      have hmem : ∀ x ∈ pre, x ∈ sess.timestamps := by
        intro x hx
        rw [hl]
        exact List.mem_append_left _ hx
      have hmmem : m ∈ sess.timestamps := by
        rw [hl]
        exact List.mem_append_right _ (List.mem_cons_self _ _)
      refine ⟨pre, m, _, (offset_scan_walk (offset % (sess.vififo_size : Int))
        (half_vififo sess.vififo_size) sess.timestamps sess.esparser_queued_bufs).queued, hl, ?_,
        fun x hx => hfar x (hmem x hx) (hpre x hx), ?_⟩
      · exact (within_wiggle_iff _ m hq0 hq1 (hled m hmmem).1 (hled m hmmem).2).mp hwin
      · rw [heq, hkept]

/-- C1: whenever `amvdec_dst_buf_done_offset` completes the buffer with a timestamp, that
timestamp belongs to the first ledger entry, in ledger order, whose offset lies strictly
less than 4096 away from the reported offset reduced modulo the FIFO size; every entry
walked before it is 4096 or more away. Offsets are non-negative `s32` values. -/
theorem dst_buf_done_offset_first_in_window (sess : amvdec_session)
    (vbuf : vb2_v4l2_buffer) (offset : Int) (field : v4l2_field) (b : vb2_v4l2_buffer)
    (_hsize : 0 < sess.vififo_size) (hoff0 : 0 ≤ offset) (hoff1 : offset < 2147483648)
    (hled : ∀ e ∈ sess.timestamps, 0 ≤ e.offset ∧ e.offset < 2147483648)
    (hres : (amvdec_dst_buf_done_offset sess vbuf offset field).buf_done
      = (b, .DONE) :: sess.buf_done) :
    ∃ pre e post, sess.timestamps = pre ++ e :: post ∧ b.timestamp = e.ts ∧
      |offset % (sess.vififo_size : Int) - e.offset| < 4096 ∧
      ∀ x ∈ pre, 4096 ≤ |offset % (sess.vififo_size : Int) - x.offset| := by
  rcases dst_buf_done_offset_spec sess vbuf offset field hoff0 hoff1 hled with
    ⟨-, c, heq⟩ | ⟨pre, m, post, c, hl, hwin, hpre, heq⟩
  · rw [heq] at hres
    simp [v4l2_m2m_buf_done] at hres
  · obtain ⟨b2, hb2, hts⟩ := dst_buf_done_buf_done
      { sess with
        timestamps := pre.filter (fun x =>
          !is_stale (ts_delta (offset % (sess.vififo_size : Int)) x)
            (half_vififo sess.vififo_size)) ++ post
        esparser_queued_bufs := c } vbuf field m.ts
    rw [heq, hb2] at hres
    have hb : b2 = b := (Prod.mk.inj (List.head_eq_of_cons_eq hres)).1
    subst hb
    exact ⟨pre, m, post, hl, hts, hwin, hpre⟩

/-- Instance of C1: FIFO of 100000 bytes, entries at offsets 0, 5000 and 90000, completion
reported at offset 4900. -/
theorem dst_buf_done_offset_first_in_window_witness :
    ∃ pre e post,
      (sample_session 100000 [⟨10, 0⟩, ⟨20, 5000⟩, ⟨30, 90000⟩]).timestamps
        = pre ++ e :: post ∧
      ({ sample_buffer 0 with timestamp := 20, bytesused := [2073600, 1036800, 0] } :
        vb2_v4l2_buffer).timestamp = e.ts ∧
      |(4900 : Int) % ((sample_session 100000
        [⟨10, 0⟩, ⟨20, 5000⟩, ⟨30, 90000⟩]).vififo_size : Int) - e.offset| < 4096 ∧
      ∀ x ∈ pre, 4096 ≤ |(4900 : Int) % ((sample_session 100000
        [⟨10, 0⟩, ⟨20, 5000⟩, ⟨30, 90000⟩]).vififo_size : Int) - x.offset| :=
  dst_buf_done_offset_first_in_window
    (sample_session 100000 [⟨10, 0⟩, ⟨20, 5000⟩, ⟨30, 90000⟩]) (sample_buffer 0) 4900 .NONE
    { sample_buffer 0 with timestamp := 20, bytesused := [2073600, 1036800, 0] }
    (by decide) (by decide) (by decide) (by decide) (by rfl)

/-- C2, as stated, fails: with entries at offsets 0 and 4096 and a completion reported at
offset 3000, the buffer gets the timestamp of the entry at offset 0 (3000 away), although
the entry at offset 4096 lies within the window and is strictly closer (1096 away). -/
theorem dst_buf_done_offset_not_nearest :
    (amvdec_dst_buf_done_offset (sample_session 100000 [⟨1, 0⟩, ⟨2, 4096⟩])
        (sample_buffer 0) 3000 .NONE).buf_done
      = [({ sample_buffer 0 with timestamp := 1, bytesused := [2073600, 1036800, 0] },
          .DONE)] ∧
    (⟨2, 4096⟩ : amvdec_timestamp) ∈ (sample_session 100000 [⟨1, 0⟩, ⟨2, 4096⟩]).timestamps ∧
    |(3000 : Int) % 100000 - 4096| < 4096 ∧
    |(3000 : Int) % 100000 - 4096| < |(3000 : Int) % 100000 - 0| :=
  ⟨by rfl, by decide, by decide, by decide⟩

/-- C2, amended: the entry whose timestamp `amvdec_dst_buf_done_offset` attaches is the
first entry in ledger order within the window of 4096 around the reduced offset: it lies
within the window, every entry that precedes it in the ledger lies 4096 or more away, and
so it is strictly closer to the reduced offset than each of them. Offsets are non-negative
`s32` values. -/
theorem dst_buf_done_offset_nearer_than_earlier (sess : amvdec_session)
    (vbuf : vb2_v4l2_buffer) (offset : Int) (field : v4l2_field) (b : vb2_v4l2_buffer)
    (_hsize : 0 < sess.vififo_size) (hoff0 : 0 ≤ offset) (hoff1 : offset < 2147483648)
    (hled : ∀ e ∈ sess.timestamps, 0 ≤ e.offset ∧ e.offset < 2147483648)
    (hres : (amvdec_dst_buf_done_offset sess vbuf offset field).buf_done
      = (b, .DONE) :: sess.buf_done) :
    ∃ pre e post, sess.timestamps = pre ++ e :: post ∧ b.timestamp = e.ts ∧
      |offset % (sess.vififo_size : Int) - e.offset| < 4096 ∧
      ∀ x ∈ pre, 4096 ≤ |offset % (sess.vififo_size : Int) - x.offset| ∧
        |offset % (sess.vififo_size : Int) - e.offset|
          < |offset % (sess.vififo_size : Int) - x.offset| := by
  rcases dst_buf_done_offset_spec sess vbuf offset field hoff0 hoff1 hled with
    ⟨-, c, heq⟩ | ⟨pre, m, post, c, hl, hwin, hpre, heq⟩
  · rw [heq] at hres
    simp [v4l2_m2m_buf_done] at hres
  · obtain ⟨b2, hb2, hts⟩ := dst_buf_done_buf_done
      { sess with
        timestamps := pre.filter (fun x =>
          !is_stale (ts_delta (offset % (sess.vififo_size : Int)) x)
            (half_vififo sess.vififo_size)) ++ post
        esparser_queued_bufs := c } vbuf field m.ts
    rw [heq, hb2] at hres
    have hb : b2 = b := (Prod.mk.inj (List.head_eq_of_cons_eq hres)).1
    subst hb
    exact ⟨pre, m, post, hl, hts, hwin,
      fun x hx => ⟨hpre x hx, lt_of_lt_of_le hwin (hpre x hx)⟩⟩

/-- Instance of the amended C2: entries at offsets 9000, 4096 and 5000, completion
reported at offset 3000. -/
theorem dst_buf_done_offset_nearer_than_earlier_witness :
    ∃ pre e post,
      (sample_session 100000 [⟨1, 9000⟩, ⟨2, 4096⟩, ⟨3, 5000⟩]).timestamps
        = pre ++ e :: post ∧
      ({ sample_buffer 0 with timestamp := 2, bytesused := [2073600, 1036800, 0] } :
        vb2_v4l2_buffer).timestamp = e.ts ∧
      |(3000 : Int) % ((sample_session 100000
        [⟨1, 9000⟩, ⟨2, 4096⟩, ⟨3, 5000⟩]).vififo_size : Int) - e.offset| < 4096 ∧
      ∀ x ∈ pre, 4096 ≤ |(3000 : Int) % ((sample_session 100000
          [⟨1, 9000⟩, ⟨2, 4096⟩, ⟨3, 5000⟩]).vififo_size : Int) - x.offset| ∧
        |(3000 : Int) % ((sample_session 100000
          [⟨1, 9000⟩, ⟨2, 4096⟩, ⟨3, 5000⟩]).vififo_size : Int) - e.offset|
          < |(3000 : Int) % ((sample_session 100000
            [⟨1, 9000⟩, ⟨2, 4096⟩, ⟨3, 5000⟩]).vififo_size : Int) - x.offset| :=
  dst_buf_done_offset_nearer_than_earlier
    (sample_session 100000 [⟨1, 9000⟩, ⟨2, 4096⟩, ⟨3, 5000⟩]) (sample_buffer 0) 3000 .NONE
    { sample_buffer 0 with timestamp := 2, bytesused := [2073600, 1036800, 0] }
    (by decide) (by decide) (by decide) (by decide) (by rfl)

/-- C3, as stated, fails: with one entry at offset 5000 and a completion reported at
offset 0, no entry matches, and the entry, whose offset exceeds the reduced offset, is
still in the ledger after the call. -/
theorem dst_buf_done_offset_keeps_entry_ahead :
    (amvdec_dst_buf_done_offset (sample_session 100000 [⟨1, 5000⟩])
        (sample_buffer 0) 0 .NONE).buf_done = [(sample_buffer 0, .ERROR)] ∧
    (⟨1, 5000⟩ : amvdec_timestamp) ∈
      (amvdec_dst_buf_done_offset (sample_session 100000 [⟨1, 5000⟩])
        (sample_buffer 0) 0 .NONE).timestamps ∧
    (0 : Int) % 100000 < (⟨1, 5000⟩ : amvdec_timestamp).offset :=
  ⟨by rfl, by decide, by decide⟩

/-- C3, amended: when `amvdec_dst_buf_done_offset` finds no match (the buffer is completed
in error state), the ledger after the call holds no entry whose offset precedes the
reduced offset and no entry whose offset exceeds it by more than half the FIFO size; what
is left was in the ledger before. Offsets and the FIFO size are non-negative `s32`
values. -/
theorem dst_buf_done_offset_miss_evicts (sess : amvdec_session)
    (vbuf : vb2_v4l2_buffer) (offset : Int) (field : v4l2_field)
    (_hsize : 0 < sess.vififo_size) (hsize1 : sess.vififo_size < 2147483648)
    (hoff0 : 0 ≤ offset) (hoff1 : offset < 2147483648)
    (hled : ∀ e ∈ sess.timestamps, 0 ≤ e.offset ∧ e.offset < 2147483648)
    (hres : (amvdec_dst_buf_done_offset sess vbuf offset field).buf_done
      = (vbuf, .ERROR) :: sess.buf_done) :
    ∀ e ∈ (amvdec_dst_buf_done_offset sess vbuf offset field).timestamps,
      e ∈ sess.timestamps ∧
      ¬ e.offset < offset % (sess.vififo_size : Int) ∧
      ¬ (sess.vififo_size : Int) / 2 < e.offset - offset % (sess.vififo_size : Int) := by
  obtain ⟨hq0, hq1⟩ := reduce_offset_range offset sess.vififo_size hoff0 hoff1
  rcases dst_buf_done_offset_spec sess vbuf offset field hoff0 hoff1 hled with
    ⟨-, c, heq⟩ | ⟨pre, m, post, c, -, -, -, heq⟩
  · intro e he
    rw [heq] at he
    simp only [v4l2_m2m_buf_done, List.mem_filter, Bool.not_eq_true'] at he
    obtain ⟨hmem, hns⟩ := he
    have hiff := is_stale_iff (offset % (sess.vififo_size : Int))
      (half_vififo sess.vififo_size) e hq0 hq1 (hled e hmem).1 (hled e hmem).2
    rw [hns, half_vififo_eq _ hsize1] at hiff
    have hn : ¬ (0 < offset % (sess.vififo_size : Int) - e.offset ∨
        offset % (sess.vififo_size : Int) - e.offset < -((sess.vififo_size : Int) / 2)) :=
      fun h => Bool.noConfusion (hiff.mpr h)
    refine ⟨hmem, ?_, ?_⟩
    · intro h
      exact hn (Or.inl (by omega))
    · intro h
      exact hn (Or.inr (by omega))
  · obtain ⟨b2, hb2, -⟩ := dst_buf_done_buf_done
      { sess with
        timestamps := pre.filter (fun x =>
          !is_stale (ts_delta (offset % (sess.vififo_size : Int)) x)
            (half_vififo sess.vififo_size)) ++ post
        esparser_queued_bufs := c } vbuf field m.ts
    rw [heq, hb2] at hres
    have := (Prod.mk.inj (List.head_eq_of_cons_eq hres)).2
    cases this

/-- Instance of the amended C3: entries at offsets 0, 20000 and 90000, completion reported
at offset 9000; the entry at offset 20000 is the one that stays. -/
theorem dst_buf_done_offset_miss_evicts_witness :
    (⟨2, 20000⟩ : amvdec_timestamp) ∈
      (sample_session 100000 [⟨1, 0⟩, ⟨2, 20000⟩, ⟨3, 90000⟩]).timestamps ∧
    ¬ (⟨2, 20000⟩ : amvdec_timestamp).offset < (9000 : Int) % ((sample_session 100000
      [⟨1, 0⟩, ⟨2, 20000⟩, ⟨3, 90000⟩]).vififo_size : Int) ∧
    ¬ ((sample_session 100000 [⟨1, 0⟩, ⟨2, 20000⟩, ⟨3, 90000⟩]).vififo_size : Int) / 2
      < (⟨2, 20000⟩ : amvdec_timestamp).offset - (9000 : Int) % ((sample_session 100000
        [⟨1, 0⟩, ⟨2, 20000⟩, ⟨3, 90000⟩]).vififo_size : Int) :=
  dst_buf_done_offset_miss_evicts
    (sample_session 100000 [⟨1, 0⟩, ⟨2, 20000⟩, ⟨3, 90000⟩]) (sample_buffer 0) 9000 .NONE
    (by decide) (by decide) (by decide) (by decide) (by decide) (by rfl)
    ⟨2, 20000⟩ (by decide)

/-- C4, as stated, fails: with one entry at offset 0 and a completion reported at offset
5000, no entry lies within the window and no match is reported, yet the ledger, which held
one entry before the call, is empty after it. -/
theorem dst_buf_done_offset_miss_changes_ledger :
    (∀ e ∈ (sample_session 100000 [⟨1, 0⟩]).timestamps,
      4096 ≤ |(5000 : Int) % 100000 - e.offset|) ∧
    (amvdec_dst_buf_done_offset (sample_session 100000 [⟨1, 0⟩])
        (sample_buffer 0) 5000 .NONE).buf_done = [(sample_buffer 0, .ERROR)] ∧
    (amvdec_dst_buf_done_offset (sample_session 100000 [⟨1, 0⟩])
        (sample_buffer 0) 5000 .NONE).timestamps = [] ∧
    (sample_session 100000 [⟨1, 0⟩]).timestamps = [⟨1, 0⟩] :=
  ⟨by decide, by rfl, by rfl, by rfl⟩

/-- C4, amended: when no ledger entry lies within the window of 4096 around the reduced
offset, `amvdec_dst_buf_done_offset` reports no match (the buffer is completed in error
state, untouched) and the ledger after the call is the ledger before without its stale
entries, the others in their order; it is the same ledger when no entry is stale. An entry
is stale when the reduced offset minus its offset is positive or below minus half the FIFO
size. Offsets and the FIFO size are non-negative `s32` values. -/
theorem dst_buf_done_offset_miss_ledger (sess : amvdec_session)
    (vbuf : vb2_v4l2_buffer) (offset : Int) (field : v4l2_field)
    (_hsize : 0 < sess.vififo_size) (hsize1 : sess.vififo_size < 2147483648)
    (hoff0 : 0 ≤ offset) (hoff1 : offset < 2147483648)
    (hled : ∀ e ∈ sess.timestamps, 0 ≤ e.offset ∧ e.offset < 2147483648)
    (hmiss : ∀ e ∈ sess.timestamps, 4096 ≤ |offset % (sess.vififo_size : Int) - e.offset|) :
    (amvdec_dst_buf_done_offset sess vbuf offset field).buf_done
      = (vbuf, .ERROR) :: sess.buf_done ∧
    (amvdec_dst_buf_done_offset sess vbuf offset field).timestamps
      = sess.timestamps.filter (fun e =>
          decide (¬ (0 < offset % (sess.vififo_size : Int) - e.offset ∨
            offset % (sess.vififo_size : Int) - e.offset
              < -((sess.vififo_size : Int) / 2)))) ∧
    ((∀ e ∈ sess.timestamps, ¬ (0 < offset % (sess.vififo_size : Int) - e.offset ∨
        offset % (sess.vififo_size : Int) - e.offset < -((sess.vififo_size : Int) / 2))) →
      (amvdec_dst_buf_done_offset sess vbuf offset field).timestamps = sess.timestamps) := by
  obtain ⟨hq0, hq1⟩ := reduce_offset_range offset sess.vififo_size hoff0 hoff1
  have hfilter : sess.timestamps.filter (fun x =>
        !is_stale (ts_delta (offset % (sess.vififo_size : Int)) x)
          (half_vififo sess.vififo_size))
      = sess.timestamps.filter (fun e =>
          decide (¬ (0 < offset % (sess.vififo_size : Int) - e.offset ∨
            offset % (sess.vififo_size : Int) - e.offset
              < -((sess.vififo_size : Int) / 2)))) := by
    apply List.filter_congr
    intro e he
    have hiff := is_stale_iff (offset % (sess.vififo_size : Int))
      (half_vififo sess.vififo_size) e hq0 hq1 (hled e he).1 (hled e he).2
    rw [half_vififo_eq _ hsize1] at hiff ⊢
    by_cases hst : (0 < offset % (sess.vififo_size : Int) - e.offset ∨
        offset % (sess.vififo_size : Int) - e.offset < -((sess.vififo_size : Int) / 2))
    · rw [hiff.mpr hst, decide_eq_false (not_not.mpr hst)]
      rfl
    · have hf : is_stale (ts_delta (offset % (sess.vififo_size : Int)) e)
          ((sess.vififo_size : Int) / 2) = false := by
        rcases hb : is_stale (ts_delta (offset % (sess.vififo_size : Int)) e)
          ((sess.vififo_size : Int) / 2) with _ | _
        · rfl
        · exact absurd (hiff.mp hb) hst
      rw [hf, decide_eq_true hst]
      rfl
  rcases dst_buf_done_offset_spec sess vbuf offset field hoff0 hoff1 hled with
    ⟨-, c, heq⟩ | ⟨pre, m, post, c, hl, hwin, -, -⟩
  · have hts : (amvdec_dst_buf_done_offset sess vbuf offset field).timestamps
        = sess.timestamps.filter (fun e =>
          decide (¬ (0 < offset % (sess.vififo_size : Int) - e.offset ∨
            offset % (sess.vififo_size : Int) - e.offset
              < -((sess.vififo_size : Int) / 2)))) := by
      rw [heq, ← hfilter]
      rfl
    refine ⟨by rw [heq]; rfl, hts, ?_⟩
    intro hnone
    rw [hts]
    exact List.filter_eq_self.mpr (fun e he => by simpa using hnone e he)
  · have hmmem : m ∈ sess.timestamps := by
      rw [hl]
      exact List.mem_append_right _ (List.mem_cons_self _ _)
    exact absurd hwin (not_lt.mpr (hmiss m hmmem))

/-- Instance of the amended C4: entries at offsets 0, 20000 and 90000, completion reported
at offset 9000. -/
theorem dst_buf_done_offset_miss_ledger_witness :
    (amvdec_dst_buf_done_offset (sample_session 100000 [⟨1, 0⟩, ⟨2, 20000⟩, ⟨3, 90000⟩])
        (sample_buffer 0) 9000 .NONE).buf_done
      = (sample_buffer 0, .ERROR)
        :: (sample_session 100000 [⟨1, 0⟩, ⟨2, 20000⟩, ⟨3, 90000⟩]).buf_done ∧
    (amvdec_dst_buf_done_offset (sample_session 100000 [⟨1, 0⟩, ⟨2, 20000⟩, ⟨3, 90000⟩])
        (sample_buffer 0) 9000 .NONE).timestamps
      = (sample_session 100000 [⟨1, 0⟩, ⟨2, 20000⟩, ⟨3, 90000⟩]).timestamps.filter
        (fun e => decide (¬ (0 < (9000 : Int) % ((sample_session 100000
            [⟨1, 0⟩, ⟨2, 20000⟩, ⟨3, 90000⟩]).vififo_size : Int) - e.offset ∨
          (9000 : Int) % ((sample_session 100000
            [⟨1, 0⟩, ⟨2, 20000⟩, ⟨3, 90000⟩]).vififo_size : Int) - e.offset
            < -(((sample_session 100000
              [⟨1, 0⟩, ⟨2, 20000⟩, ⟨3, 90000⟩]).vififo_size : Int) / 2)))) :=
  ⟨(dst_buf_done_offset_miss_ledger
      (sample_session 100000 [⟨1, 0⟩, ⟨2, 20000⟩, ⟨3, 90000⟩]) (sample_buffer 0) 9000 .NONE
      (by decide) (by decide) (by decide) (by decide) (by decide) (by decide)).1,
   (dst_buf_done_offset_miss_ledger
      (sample_session 100000 [⟨1, 0⟩, ⟨2, 20000⟩, ⟨3, 90000⟩]) (sample_buffer 0) 9000 .NONE
      (by decide) (by decide) (by decide) (by decide) (by decide) (by decide)).2.1⟩

/-! ## Ordered insertion -/

/-- Where `add_ts_walk` puts the new entry: behind the entries with a smaller timestamp
that head the list, in front of everything else. -/
theorem add_ts_walk_split (new_ts : amvdec_timestamp) (l : List amvdec_timestamp) :
    ∃ pre post, l = pre ++ post ∧ add_ts_walk new_ts l = pre ++ new_ts :: post ∧
      (∀ x ∈ pre, x.ts < new_ts.ts) ∧ (∀ y, post.head? = some y → new_ts.ts ≤ y.ts) := by
  induction l with
  | nil => exact ⟨[], [], rfl, rfl, by simp, by simp⟩
  | cons tmp rest ih =>
    by_cases h : new_ts.ts ≤ tmp.ts
    · refine ⟨[], tmp :: rest, rfl, by simp [add_ts_walk, h], by simp, ?_⟩
      intro y hy
      simp only [List.head?_cons, Option.some.injEq] at hy
      rw [← hy]
      exact h
    · obtain ⟨pre, post, hl, hw, hpre, hpost⟩ := ih
      refine ⟨tmp :: pre, post, by rw [hl]; rfl, by simp [add_ts_walk, h, hw], ?_, hpost⟩
      intro x hx
      rcases List.mem_cons.mp hx with rfl | hx
      · exact not_le.mp h
      · exact hpre x hx

theorem add_ts_walk_append (new_ts : amvdec_timestamp) (l : List amvdec_timestamp)
    (h : ∀ x ∈ l, x.ts < new_ts.ts) : add_ts_walk new_ts l = l ++ [new_ts] := by
  induction l with
  | nil => rfl
  | cons tmp rest ih =>
    have h1 : ¬ new_ts.ts ≤ tmp.ts := not_le.mpr (h tmp (List.mem_cons_self _ _))
    simp only [add_ts_walk, h1, if_false, List.cons_append]
    rw [ih (fun x hx => h x (List.mem_cons_of_mem _ hx))]

theorem add_ts_walk_sorted (new_ts : amvdec_timestamp) (l : List amvdec_timestamp)
    (h : l.Pairwise (fun a b => a.ts ≤ b.ts)) :
    (add_ts_walk new_ts l).Pairwise (fun a b => a.ts ≤ b.ts) := by
  induction l with
  | nil => simp [add_ts_walk]
  | cons tmp rest ih =>
    obtain ⟨htmp, hrest⟩ := List.pairwise_cons.mp h
    by_cases hle : new_ts.ts ≤ tmp.ts
    · simp only [add_ts_walk, hle, if_true]
      refine List.pairwise_cons.mpr ⟨?_, h⟩
      intro y hy
      rcases List.mem_cons.mp hy with rfl | hy
      · exact hle
      · exact le_trans hle (htmp y hy)
    · simp only [add_ts_walk, hle, if_false]
      refine List.pairwise_cons.mpr ⟨?_, ih hrest⟩
      intro y hy
      obtain ⟨pre, post, hl, hw, -, -⟩ := add_ts_walk_split new_ts rest
      rw [hw] at hy
      rcases List.mem_append.mp hy with hy | hy
      · exact htmp y (hl ▸ List.mem_append_left _ hy)
      · rcases List.mem_cons.mp hy with rfl | hy
        · exact le_of_lt (not_le.mp hle)
        · exact htmp y (hl ▸ List.mem_append_right _ hy)

/-- Folding insertions whose timestamps increase strictly, and exceed what the ledger
holds, appends them in order. -/
theorem add_ts_fold_append (ins : List amvdec_timestamp) (sess : amvdec_session)
    (hinc : ins.Pairwise (fun a b => a.ts < b.ts))
    (hlow : ∀ x ∈ sess.timestamps, ∀ y ∈ ins, x.ts < y.ts) :
    (ins.foldl (fun s e => amvdec_add_ts_reorder s e.ts e.offset) sess).timestamps
      = sess.timestamps ++ ins := by
  induction ins generalizing sess with
  | nil => simp
  | cons e rest ih =>
    obtain ⟨he, hrest⟩ := List.pairwise_cons.mp hinc
    have hstep : (amvdec_add_ts_reorder sess e.ts e.offset).timestamps
        = sess.timestamps ++ [e] := by
      unfold amvdec_add_ts_reorder
      exact add_ts_walk_append ⟨e.ts, e.offset⟩ sess.timestamps
        (fun x hx => hlow x hx e (List.mem_cons_self _ _))
    rw [List.foldl_cons, ih (amvdec_add_ts_reorder sess e.ts e.offset) hrest, hstep]
    · simp
    · intro x hx y hy
      rw [hstep] at hx
      rcases List.mem_append.mp hx with hx | hx
      · exact hlow x hx y (List.mem_cons_of_mem _ hy)
      · rw [List.mem_singleton.mp hx]
        exact he y hy

/-- C5: starting from an empty ledger, insertions with strictly increasing (hence
distinct) timestamps leave the ledger listing the inserted pairs in insertion order. -/
theorem add_ts_reorder_keeps_insertion_order (sess : amvdec_session)
    (ins : List amvdec_timestamp) (hempty : sess.timestamps = [])
    (hinc : ins.Pairwise (fun a b => a.ts < b.ts)) :
    (ins.foldl (fun s e => amvdec_add_ts_reorder s e.ts e.offset) sess).timestamps = ins := by
  rw [add_ts_fold_append ins sess hinc (by simp [hempty]), hempty]
  rfl

/-- Instance of C5: three insertions with timestamps 10, 20, 30. -/
theorem add_ts_reorder_keeps_insertion_order_witness :
    (List.foldl (fun s (e : amvdec_timestamp) => amvdec_add_ts_reorder s e.ts e.offset)
        (sample_session 100000 []) [⟨10, 0⟩, ⟨20, 5000⟩, ⟨30, 90000⟩]).timestamps
      = [⟨10, 0⟩, ⟨20, 5000⟩, ⟨30, 90000⟩] :=
  add_ts_reorder_keeps_insertion_order (sample_session 100000 [])
    [⟨10, 0⟩, ⟨20, 5000⟩, ⟨30, 90000⟩] (by rfl) (by decide)

/-! ## Removal keeps a sub-list -/

theorem remove_ts_walk_sublist (ts : Nat) (l : List amvdec_timestamp) :
    (remove_ts_walk ts l).Sublist l := by
  induction l with
  | nil => exact List.Sublist.refl _
  | cons tmp rest ih =>
    by_cases h : tmp.ts = ts
    · simp only [remove_ts_walk, h, if_true]
      exact List.sublist_cons_self _ _
    · simp only [remove_ts_walk, h, if_false]
      exact ih.cons₂ _

theorem rm_first_ts_sublist (sess : amvdec_session) :
    (amvdec_rm_first_ts sess).timestamps.Sublist sess.timestamps := by
  unfold amvdec_rm_first_ts
  rcases h : sess.timestamps with _ | ⟨tmp, rest⟩
  · simp [h]
  · exact List.sublist_cons_self _ _

theorem dst_buf_done_head_sublist (sess : amvdec_session) (vbuf : vb2_v4l2_buffer)
    (field : v4l2_field) :
    (amvdec_dst_buf_done sess vbuf field).timestamps.Sublist sess.timestamps := by
  unfold amvdec_dst_buf_done
  rcases h : sess.timestamps with _ | ⟨tmp, rest⟩
  · simp [v4l2_m2m_buf_done, h]
  · simp only [dst_buf_done_timestamps]
    exact List.sublist_cons_self _ _

theorem dst_buf_done_offset_sublist (sess : amvdec_session) (vbuf : vb2_v4l2_buffer)
    (offset : Int) (field : v4l2_field) :
    (amvdec_dst_buf_done_offset sess vbuf offset field).timestamps.Sublist
      sess.timestamps := by
  obtain ⟨pre, -, hkept, hcase⟩ := offset_scan_walk_spec
    (reduce_offset offset sess.vififo_size) (half_vififo sess.vififo_size)
    sess.timestamps sess.esparser_queued_bufs
  rcases dst_buf_done_offset_unfold sess vbuf offset field with ⟨hnone, heq⟩ | ⟨m, hm, heq⟩
  · rcases hcase with ⟨-, -, hl⟩ | ⟨m, hm, -, -⟩
    · rw [heq]
      simp only [v4l2_m2m_buf_done]
      rw [hkept, hl]
      exact List.filter_sublist _
    · rw [hnone] at hm
      cases hm
  · rcases hcase with ⟨hnone, -, -⟩ | ⟨m2, -, -, hl⟩
    · rw [hnone] at hm
      cases hm
    · rw [heq, dst_buf_done_timestamps]
      simp only
      rw [hkept]
      conv => rhs; rw [hl]
      exact List.Sublist.append (List.filter_sublist _) (List.sublist_cons_self _ _)

/-! ## Ledger order -/

/-- C6: a ledger sorted by non-decreasing timestamp is still sorted after each of
`amvdec_add_ts_reorder`, `amvdec_remove_ts`, `amvdec_rm_first_ts`, `amvdec_dst_buf_done`
and `amvdec_dst_buf_done_offset`; and an insertion puts the new entry somewhere into the
ledger, leaving the entries that were there as they were, in their order. -/
theorem ledger_stays_sorted (sess : amvdec_session) (ts : Nat) (offset : Int)
    (rm_ts : Nat) (vbuf : vb2_v4l2_buffer) (field : v4l2_field) (reported : Int)
    (_hsize : 0 < sess.vififo_size)
    (hsorted : sess.timestamps.Pairwise (fun a b => a.ts ≤ b.ts)) :
    (amvdec_add_ts_reorder sess ts offset).timestamps.Pairwise (fun a b => a.ts ≤ b.ts) ∧
    (∃ pre post, sess.timestamps = pre ++ post ∧
      (amvdec_add_ts_reorder sess ts offset).timestamps = pre ++ ⟨ts, offset⟩ :: post) ∧
    (amvdec_remove_ts sess rm_ts).timestamps.Pairwise (fun a b => a.ts ≤ b.ts) ∧
    (amvdec_rm_first_ts sess).timestamps.Pairwise (fun a b => a.ts ≤ b.ts) ∧
    (amvdec_dst_buf_done sess vbuf field).timestamps.Pairwise (fun a b => a.ts ≤ b.ts) ∧
    (amvdec_dst_buf_done_offset sess vbuf reported field).timestamps.Pairwise
      (fun a b => a.ts ≤ b.ts) := by
  refine ⟨add_ts_walk_sorted _ _ hsorted, ?_, ?_, ?_, ?_, ?_⟩
  · obtain ⟨pre, post, hl, hw, -, -⟩ := add_ts_walk_split ⟨ts, offset⟩ sess.timestamps
    exact ⟨pre, post, hl, hw⟩
  · exact hsorted.sublist (remove_ts_walk_sublist rm_ts sess.timestamps)
  · exact hsorted.sublist (rm_first_ts_sublist sess)
  · exact hsorted.sublist (dst_buf_done_head_sublist sess vbuf field)
  · exact hsorted.sublist (dst_buf_done_offset_sublist sess vbuf reported field)

/-- Instance of C6: the ledger with timestamps 10, 20, 30; insertion of timestamp 20. -/
theorem ledger_stays_sorted_witness :
    (amvdec_add_ts_reorder (sample_session 100000 [⟨10, 0⟩, ⟨20, 5000⟩, ⟨30, 90000⟩])
        20 7000).timestamps.Pairwise (fun a b => a.ts ≤ b.ts) ∧
    (amvdec_dst_buf_done_offset (sample_session 100000 [⟨10, 0⟩, ⟨20, 5000⟩, ⟨30, 90000⟩])
        (sample_buffer 0) 4900 .NONE).timestamps.Pairwise (fun a b => a.ts ≤ b.ts) :=
  ⟨(ledger_stays_sorted (sample_session 100000 [⟨10, 0⟩, ⟨20, 5000⟩, ⟨30, 90000⟩])
      20 7000 20 (sample_buffer 0) .NONE 4900 (by decide) (by decide)).1,
   (ledger_stays_sorted (sample_session 100000 [⟨10, 0⟩, ⟨20, 5000⟩, ⟨30, 90000⟩])
      20 7000 20 (sample_buffer 0) .NONE 4900 (by decide) (by decide)).2.2.2.2.2⟩

/-- C7, as stated, fails: inserting timestamp 5 into a ledger that holds one entry with
timestamp 5 puts the new entry in front of the existing one, not behind it. -/
theorem add_ts_reorder_tie_goes_first :
    (amvdec_add_ts_reorder (sample_session 100000 [⟨5, 0⟩]) 5 100).timestamps
      = [⟨5, 100⟩, ⟨5, 0⟩] ∧
    (amvdec_add_ts_reorder (sample_session 100000 [⟨5, 0⟩]) 5 100).timestamps
      ≠ [⟨5, 0⟩, ⟨5, 100⟩] :=
  ⟨by rfl, by decide⟩

/-- C7, amended: `amvdec_add_ts_reorder` places the new entry behind the entries with a
strictly smaller timestamp that head the ledger and in front of everything else; every
existing entry with the same timestamp as the new one ends up behind it (prepend on
tie). -/
theorem add_ts_reorder_before_equal (sess : amvdec_session) (ts : Nat) (offset : Int) :
    ∃ pre post, sess.timestamps = pre ++ post ∧
      (amvdec_add_ts_reorder sess ts offset).timestamps = pre ++ ⟨ts, offset⟩ :: post ∧
      (∀ x ∈ pre, x.ts < ts) ∧
      (∀ y, post.head? = some y → ts ≤ y.ts) ∧
      (∀ x ∈ pre, x.ts ≠ ts) := by
  obtain ⟨pre, post, hl, hw, hpre, hpost⟩ := add_ts_walk_split ⟨ts, offset⟩ sess.timestamps
  exact ⟨pre, post, hl, hw, hpre, hpost, fun x hx => Nat.ne_of_lt (hpre x hx)⟩

/-! ## Removal by timestamp -/

theorem remove_ts_walk_absent (ts : Nat) (l : List amvdec_timestamp)
    (h : ∀ e ∈ l, e.ts ≠ ts) : remove_ts_walk ts l = l := by
  induction l with
  | nil => rfl
  | cons tmp rest ih =>
    simp only [remove_ts_walk, h tmp (List.mem_cons_self _ _), if_false]
    rw [ih (fun e he => h e (List.mem_cons_of_mem _ he))]

theorem remove_ts_walk_first (ts : Nat) (pre post : List amvdec_timestamp)
    (e : amvdec_timestamp) (hpre : ∀ x ∈ pre, x.ts ≠ ts) (he : e.ts = ts) :
    remove_ts_walk ts (pre ++ e :: post) = pre ++ post := by
  induction pre with
  | nil => simp [remove_ts_walk, he]
  | cons tmp rest ih =>
    have hstep : remove_ts_walk ts (tmp :: (rest ++ e :: post))
        = tmp :: remove_ts_walk ts (rest ++ e :: post) := by
      simp only [remove_ts_walk, hpre tmp (List.mem_cons_self _ _), if_false]
    rw [List.cons_append, hstep, ih (fun x hx => hpre x (List.mem_cons_of_mem _ hx))]
    rfl

/-- C8: when no ledger entry carries `ts` (the empty ledger included), `amvdec_remove_ts`
leaves the whole session as it was: same ledger, no abort. When some entry carries `ts`,
the first such entry is unlinked and nothing else changes: the other entries, the
pending-buffer counter and the abort state are what they were. -/
theorem remove_ts_exact (sess : amvdec_session) (ts : Nat) :
    ((∀ e ∈ sess.timestamps, e.ts ≠ ts) → amvdec_remove_ts sess ts = sess) ∧
    (∀ pre e post, sess.timestamps = pre ++ e :: post → (∀ x ∈ pre, x.ts ≠ ts) →
      e.ts = ts →
      amvdec_remove_ts sess ts = { sess with timestamps := pre ++ post } ∧
      (amvdec_remove_ts sess ts).esparser_queued_bufs = sess.esparser_queued_bufs ∧
      (amvdec_remove_ts sess ts).aborted = sess.aborted) := by
  constructor
  · intro h
    unfold amvdec_remove_ts
    rw [remove_ts_walk_absent ts _ h]
  · intro pre e post hl hpre he
    refine ⟨?_, rfl, rfl⟩
    unfold amvdec_remove_ts
    rw [hl, remove_ts_walk_first ts pre post e hpre he]

/-- Instance of C8: an absent timestamp on the empty ledger, and a timestamp carried by
two entries. -/
theorem remove_ts_exact_witness :
    amvdec_remove_ts (sample_session 100000 []) 7 = sample_session 100000 [] ∧
    amvdec_remove_ts (sample_session 100000 [⟨10, 0⟩, ⟨20, 5000⟩, ⟨20, 6000⟩]) 20
      = { sample_session 100000 [⟨10, 0⟩, ⟨20, 5000⟩, ⟨20, 6000⟩] with
          timestamps := [⟨10, 0⟩] ++ [⟨20, 6000⟩] } :=
  ⟨(remove_ts_exact (sample_session 100000 []) 7).1 (by decide),
   ((remove_ts_exact (sample_session 100000 [⟨10, 0⟩, ⟨20, 5000⟩, ⟨20, 6000⟩]) 20).2
      [⟨10, 0⟩] ⟨20, 5000⟩ [⟨20, 6000⟩] (by rfl) (by decide) (by rfl)).1⟩

/-! ## H.264 parameter negotiation -/

theorem mask_low (x n : Nat) : x &&& GENMASK n 0 = x % 2 ^ (n + 1) := by
  unfold GENMASK
  simp only [pow_zero]
  exact Nat.and_pow_two_sub_one_eq_mod x (n + 1)

theorem ALIGN_four (x : Nat) (h : x < 4294967293) : ALIGN x 4 = (x + 3) / 4 * 4 := by
  unfold ALIGN
  rw [Nat.mod_eq_of_lt (by omega)]

theorem h264_max_reference_size_eq (word : Nat) :
    h264_max_reference_size word = word / 16777216 % 128 := by
  unfold h264_max_reference_size MAX_REF_BIT MAX_REF_MASK
  rw [mask_low, Nat.shiftRight_eq_div_pow]
  norm_num

theorem h264_ref_size_exact (word : Nat) :
    h264_ref_size word
      = ((word % 256 + 3) / 4 * 4) * (((word / 256 % 65536) / (word % 256) + 3) / 4 * 4)
          * 96 * (word / 16777216 % 128 + 1) := by
  unfold h264_ref_size
  simp only [h264_max_reference_size_eq]
  unfold MB_TOTAL_BIT MB_TOTAL_MASK MB_WIDTH_MASK MB_MV_SIZE
  simp only [mask_low, Nat.shiftRight_eq_div_pow]
  norm_num
  have hw : word % 256 < 256 := Nat.mod_lt _ (by norm_num)
  have ht : word / 256 % 65536 < 65536 := Nat.mod_lt _ (by norm_num)
  have hr : word / 16777216 % 128 < 128 := Nat.mod_lt _ (by norm_num)
  generalize word % 256 = w at *
  generalize word / 256 % 65536 = t at *
  generalize word / 16777216 % 128 = r at *
  have hh : t / w * w ≤ t := Nat.div_mul_le_self t w
  have hhle : t / w ≤ t := Nat.div_le_self t w
  generalize t / w = h at *
  rw [ALIGN_four w (by omega), ALIGN_four h (by omega)]
  have hA : (w + 3) / 4 * 4 ≤ w + 3 := Nat.div_mul_le_self _ _
  have hB : (h + 3) / 4 * 4 ≤ h + 3 := Nat.div_mul_le_self _ _
  have hAB : (w + 3) / 4 * 4 * ((h + 3) / 4 * 4) ≤ (w + 3) * (h + 3) := Nat.mul_le_mul hA hB
  have hexp : (w + 3) * (h + 3) = h * w + 3 * w + 3 * h + 9 := by ring
  generalize (w + 3) / 4 * 4 * ((h + 3) / 4 * 4) = p at *
  have hp : p ≤ 262914 := by omega
  rw [Nat.mod_eq_of_lt (show p < 4294967296 by omega)]
  have hprod : p * 96 * (r + 1) ≤ 262914 * 96 * 128 :=
    Nat.mul_le_mul (Nat.mul_le_mul hp (le_refl _)) (by omega)
  exact Nat.mod_eq_of_lt (by omega)

theorem read_write_dos (core : amvdec_core) (reg val : Nat) :
    amvdec_read_dos (amvdec_write_dos core reg val) reg = val % 4294967296 := by
  unfold amvdec_read_dos amvdec_write_dos
  simp

/-- The two exits of `codec_h264_set_param` once `sess->priv` is set and the width field of
the parsed status word is not zero. -/
theorem set_param_unfold (env : vdec_env) (dma_alloc_coherent : Nat → Option Nat)
    (sess : amvdec_session) (h264 : codec_h264) (word : Nat)
    (hpriv : sess.priv = some h264)
    (hword : amvdec_read_dos sess.core env.AV_SCRATCH_1 = word)
    (hwidth : word % 256 ≠ 0) :
    (dma_alloc_coherent (h264_ref_size word) = none ∧
      ∃ s, codec_h264_set_param env dma_alloc_coherent sess = some s ∧
        s.aborted = true ∧
        s.priv = some { h264 with ref_size := h264_ref_size word, ref_vaddr := false }) ∨
    (∃ paddr, dma_alloc_coherent (h264_ref_size word) = some paddr ∧
      ∃ s, codec_h264_set_param env dma_alloc_coherent sess = some s ∧
        s.priv = some { h264 with ref_size := h264_ref_size word, ref_vaddr := true,
                                  ref_paddr := paddr } ∧
        amvdec_read_dos s.core env.AV_SCRATCH_0 =
          ((((h264_max_reference_size word + 1) % 4294967296) <<< 24) % 4294967296 |||
            ((v4l2_m2m_num_dst_bufs_ready sess <<< 16) % 4294967296) |||
            (((if h264_max_reference_size word > 4 then h264_max_reference_size word
                else 4) <<< 8) % 4294967296)) % 4294967296) := by
  have hmask : word &&& MB_WIDTH_MASK ≠ 0 := by
    unfold MB_WIDTH_MASK
    rw [mask_low]
    exact hwidth
  unfold codec_h264_set_param
  rw [hpriv]
  simp only [hword, hmask, if_false]
  rcases hd : dma_alloc_coherent (h264_ref_size word) with _ | paddr
  · left
    exact ⟨rfl, _, rfl, rfl, rfl⟩
  · right
    exact ⟨paddr, rfl, _, rfl, rfl, read_write_dos _ _ _⟩

theorem or_mod_pow (a b n : Nat) : (a ||| b) % 2 ^ n = a % 2 ^ n ||| b % 2 ^ n := by
  apply Nat.eq_of_testBit_eq
  intro i
  simp only [Nat.testBit_mod_two_pow, Nat.testBit_or]
  by_cases h : i < n <;> simp [h]

/-- The control word as the code builds it, against the plain shift-and-or expression. -/
theorem control_word_eq (mr n : Nat) (hmr : mr < 128) :
    ((((mr + 1) % 4294967296) <<< 24) % 4294967296 |||
        ((n % 4294967296) <<< 16) % 4294967296 |||
        (((if mr > 4 then mr else 4) <<< 8) % 4294967296)) % 4294967296
      = (((mr + 1) <<< 24) ||| (n <<< 16) ||| (max 4 mr <<< 8)) % 4294967296 := by
  have hmax : (if mr > 4 then mr else 4) = max 4 mr := by
    split <;> omega
  have h32 : (4294967296 : Nat) = 2 ^ 32 := by norm_num
  rw [hmax, h32, or_mod_pow, or_mod_pow, or_mod_pow, or_mod_pow]
  simp only [Nat.mod_mod, Nat.shiftLeft_eq]
  have h1 : (mr + 1) % 2 ^ 32 * 2 ^ 24 % 2 ^ 32 = (mr + 1) * 2 ^ 24 % 2 ^ 32 :=
    Nat.mod_mul_mod
  have h2 : n % 2 ^ 32 * 2 ^ 16 % 2 ^ 32 = n * 2 ^ 16 % 2 ^ 32 :=
    Nat.mod_mul_mod
  rw [h1, h2]

/-- With fewer than 256 ready buffers the three fields of the control word do not overlap:
the word is the sum of the shifted fields. -/
theorem control_word_fields (mr n : Nat) (hmr : mr < 128) (hn : n < 256) :
    (((mr + 1) <<< 24) ||| (n <<< 16) ||| (max 4 mr <<< 8)) % 4294967296
      = (mr + 1) * 16777216 + n * 65536 + max 4 mr * 256 := by
  have hd : max 4 mr < 128 := by omega
  generalize max 4 mr = d at *
  simp only [Nat.shiftLeft_eq]
  have e1 : n * 2 ^ 16 ||| d * 2 ^ 8 = n * 2 ^ 16 + d * 2 ^ 8 := by
    have := Nat.mul_add_lt_is_or (show d * 2 ^ 8 < 2 ^ 16 by norm_num; omega) n
    rw [Nat.mul_comm n, ← this]
  have e2 : (mr + 1) * 2 ^ 24 ||| (n * 2 ^ 16 + d * 2 ^ 8)
      = (mr + 1) * 2 ^ 24 + (n * 2 ^ 16 + d * 2 ^ 8) := by
    have := Nat.mul_add_lt_is_or
      (show n * 2 ^ 16 + d * 2 ^ 8 < 2 ^ 24 by norm_num; omega) (mr + 1)
    rw [Nat.mul_comm (mr + 1), ← this]
  rw [Nat.lor_assoc, e1, e2]
  norm_num
  omega

/-- C9: for a parsed status word whose width field (bits 0-7) is not zero,
`codec_h264_set_param` returns and stores as reference-MV buffer size the product of the
width rounded up to a multiple of 4, the height (total, bits 8-23, divided by the width)
rounded up to a multiple of 4, 96, and the maximum reference count (bits 24-30) plus one.
For total 1000, width 25 and reference count 2 the rounded width is 28, the rounded height
40, the rounded total 1120 and the size 322560. -/
theorem set_param_ref_size (env : vdec_env) (dma_alloc_coherent : Nat → Option Nat)
    (sess : amvdec_session) (h264 : codec_h264) (word : Nat)
    (hpriv : sess.priv = some h264)
    (hword : amvdec_read_dos sess.core env.AV_SCRATCH_1 = word)
    (hwidth : word % 256 ≠ 0) :
    (∃ s h, codec_h264_set_param env dma_alloc_coherent sess = some s ∧
      s.priv = some h ∧
      h.ref_size
        = ((word % 256 + 3) / 4 * 4) * (((word / 256 % 65536) / (word % 256) + 3) / 4 * 4)
            * 96 * (word / 16777216 % 128 + 1) ∧
      (word = 2 * 16777216 + 1000 * 256 + 25 → h.ref_size = 322560)) ∧
    ALIGN 25 4 = 28 ∧ ALIGN (1000 / 25) 4 = 40 ∧
    (ALIGN 25 4 * ALIGN (1000 / 25) 4) % 4294967296 = 1120 ∧
    h264_ref_size (2 * 16777216 + 1000 * 256 + 25) = 322560 := by
  refine ⟨?_, by decide, by decide, by decide, by decide⟩
  have hex : word = 2 * 16777216 + 1000 * 256 + 25 → h264_ref_size word = 322560 := by
    intro h
    rw [h]
    decide
  rcases set_param_unfold env dma_alloc_coherent sess h264 word hpriv hword hwidth with
    ⟨-, s, hs, -, hp⟩ | ⟨paddr, -, s, hs, hp, -⟩
  · exact ⟨s, _, hs, hp, h264_ref_size_exact word, hex⟩
  · exact ⟨s, _, hs, hp, h264_ref_size_exact word, hex⟩

/-- Instance of C9: the status word with total 1000, width 25 and reference count 2. -/
theorem set_param_ref_size_witness :
    ∃ s h, codec_h264_set_param sample_env (fun _ => some 65536)
        (sample_h264_session 33810457 []) = some s ∧
      s.priv = some h ∧
      h.ref_size
        = ((33810457 % 256 + 3) / 4 * 4)
            * (((33810457 / 256 % 65536) / (33810457 % 256) + 3) / 4 * 4)
            * 96 * (33810457 / 16777216 % 128 + 1) ∧
      (33810457 = 2 * 16777216 + 1000 * 256 + 25 → h.ref_size = 322560) :=
  (set_param_ref_size sample_env (fun _ => some 65536) (sample_h264_session 33810457 [])
    sample_h264 33810457 (by rfl) (by rfl) (by decide)).1

/-- C10: when the reference buffer allocation succeeds, `codec_h264_set_param` leaves in
`AV_SCRATCH_0` the 32-bit word `((max_reference_count + 1) << 24) | (n << 16) |
(max(4, max_reference_count) << 8)`, with `n` the number of ready destination buffers and
`max_reference_count` bits 24-30 of the parsed status word; for `n < 256` bits 24-31 hold
`max_reference_count + 1`, bits 16-23 hold `n` and bits 8-15 hold the DPB size. -/
theorem set_param_control_word (env : vdec_env) (dma_alloc_coherent : Nat → Option Nat)
    (sess : amvdec_session) (h264 : codec_h264) (word paddr : Nat)
    (hpriv : sess.priv = some h264)
    (hword : amvdec_read_dos sess.core env.AV_SCRATCH_1 = word)
    (hwidth : word % 256 ≠ 0)
    (halloc : dma_alloc_coherent (h264_ref_size word) = some paddr) :
    ∃ s, codec_h264_set_param env dma_alloc_coherent sess = some s ∧
      amvdec_read_dos s.core env.AV_SCRATCH_0
        = (((word / 16777216 % 128 + 1) <<< 24) ||| (sess.dst_bufs.length <<< 16) |||
            (max 4 (word / 16777216 % 128) <<< 8)) % 4294967296 ∧
      (sess.dst_bufs.length < 256 →
        amvdec_read_dos s.core env.AV_SCRATCH_0 / 16777216 % 256
          = word / 16777216 % 128 + 1 ∧
        amvdec_read_dos s.core env.AV_SCRATCH_0 / 65536 % 256 = sess.dst_bufs.length ∧
        amvdec_read_dos s.core env.AV_SCRATCH_0 / 256 % 256
          = max 4 (word / 16777216 % 128)) := by
  have hmr : word / 16777216 % 128 < 128 := Nat.mod_lt _ (by norm_num)
  rcases set_param_unfold env dma_alloc_coherent sess h264 word hpriv hword hwidth with
    ⟨hnone, -⟩ | ⟨paddr2, -, s, hs, -, hreg⟩
  · rw [hnone] at halloc
    cases halloc
  · have hval : amvdec_read_dos s.core env.AV_SCRATCH_0
        = (((word / 16777216 % 128 + 1) <<< 24) ||| (sess.dst_bufs.length <<< 16) |||
            (max 4 (word / 16777216 % 128) <<< 8)) % 4294967296 := by
      rw [hreg, h264_max_reference_size_eq]
      unfold v4l2_m2m_num_dst_bufs_ready
      exact control_word_eq _ _ hmr
    refine ⟨s, hs, hval, ?_⟩
    intro hn
    rw [hval, control_word_fields _ _ hmr hn]
    have hd : max 4 (word / 16777216 % 128) < 128 := by omega
    generalize max 4 (word / 16777216 % 128) = d at *
    generalize word / 16777216 % 128 = mr at *
    refine ⟨?_, ?_, ?_⟩ <;> omega

/-- Instance of C10: reference count 2 and three ready destination buffers give the word
`0x03030400`. -/
theorem set_param_control_word_witness :
    ∃ s, codec_h264_set_param sample_env (fun _ => some 65536)
        (sample_h264_session 33810457
          [sample_buffer 0, sample_buffer 1, sample_buffer 2]) = some s ∧
      amvdec_read_dos s.core sample_env.AV_SCRATCH_0
        = (((33810457 / 16777216 % 128 + 1) <<< 24) |||
            ((sample_h264_session 33810457
              [sample_buffer 0, sample_buffer 1, sample_buffer 2]).dst_bufs.length <<< 16) |||
            (max 4 (33810457 / 16777216 % 128) <<< 8)) % 4294967296 ∧
      ((sample_h264_session 33810457
          [sample_buffer 0, sample_buffer 1, sample_buffer 2]).dst_bufs.length < 256 →
        amvdec_read_dos s.core sample_env.AV_SCRATCH_0 / 16777216 % 256
          = 33810457 / 16777216 % 128 + 1 ∧
        amvdec_read_dos s.core sample_env.AV_SCRATCH_0 / 65536 % 256
          = (sample_h264_session 33810457
              [sample_buffer 0, sample_buffer 1, sample_buffer 2]).dst_bufs.length ∧
        amvdec_read_dos s.core sample_env.AV_SCRATCH_0 / 256 % 256
          = max 4 (33810457 / 16777216 % 128)) :=
  set_param_control_word sample_env (fun _ => some 65536)
    (sample_h264_session 33810457 [sample_buffer 0, sample_buffer 1, sample_buffer 2])
    sample_h264 33810457 65536 (by rfl) (by rfl) (by decide) (by rfl)

/-! ## More buffer completion facts -/

/-- The buffer that `dst_buf_done` hands back, field by field. -/
theorem dst_buf_done_completed (sess : amvdec_session) (vbuf : vb2_v4l2_buffer)
    (field : v4l2_field) (timestamp : Nat) :
    ∃ b, (dst_buf_done sess vbuf field timestamp).buf_done = (b, .DONE) :: sess.buf_done ∧
      b.timestamp = timestamp ∧
      b.bytesused = set_bytesused sess vbuf.bytesused ∧
      b.sequence = sess.sequence_cap ∧
      b.field = field ∧
      b.index = vbuf.index ∧
      b.flag_last = (vbuf.flag_last || (sess.should_stop && sess.timestamps.isEmpty)) := by
  unfold dst_buf_done v4l2_m2m_buf_done
  simp only
  split
  · rename_i h
    exact ⟨_, rfl, rfl, rfl, rfl, rfl, rfl, by simp [h]⟩
  · rename_i h
    exact ⟨_, rfl, rfl, rfl, rfl, rfl, rfl, by simp [h]⟩

theorem dst_buf_done_events (sess : amvdec_session) (vbuf : vb2_v4l2_buffer)
    (field : v4l2_field) (timestamp : Nat) :
    (dst_buf_done sess vbuf field timestamp).events =
      if sess.should_stop && sess.timestamps.isEmpty then v4l2_event.EOS :: sess.events
      else sess.events := by
  unfold dst_buf_done v4l2_m2m_buf_done
  simp only
  split <;> rfl

theorem dst_buf_done_counter (sess : amvdec_session) (vbuf : vb2_v4l2_buffer)
    (field : v4l2_field) (timestamp : Nat) :
    (dst_buf_done sess vbuf field timestamp).esparser_queued_bufs
      = atomic_dec sess.esparser_queued_bufs := by
  unfold dst_buf_done v4l2_m2m_buf_done
  simp only
  split <;> rfl

theorem dst_buf_done_sequence_cap (sess : amvdec_session) (vbuf : vb2_v4l2_buffer)
    (field : v4l2_field) (timestamp : Nat) :
    (dst_buf_done sess vbuf field timestamp).sequence_cap
      = (sess.sequence_cap + 1) % 4294967296 := by
  unfold dst_buf_done v4l2_m2m_buf_done
  simp only
  split <;> rfl

theorem dst_buf_done_core (sess : amvdec_session) (vbuf : vb2_v4l2_buffer)
    (field : v4l2_field) (timestamp : Nat) :
    (dst_buf_done sess vbuf field timestamp).core = sess.core := by
  unfold dst_buf_done v4l2_m2m_buf_done
  simp only
  split <;> rfl

/-- C11: the buffer completed by `dst_buf_done` carries per-plane byte counts derived from
the output size `S`, the `u32` product of width and height (the exact product when it fits
32 bits): with two planes (NV12M) plane 0 gets `S` and plane 1 gets `S / 2`; with three
planes (YUV420M) plane 0 gets `S` and planes 1 and 2 get `S / 4` each. For a 1920x1080
two-plane frame plane 0 is 2073600 and plane 1 is 1036800. -/
theorem dst_buf_done_bytesused (sess : amvdec_session) (vbuf : vb2_v4l2_buffer)
    (field : v4l2_field) (timestamp : Nat) :
    ∃ b, (dst_buf_done sess vbuf field timestamp).buf_done = (b, .DONE) :: sess.buf_done ∧
      (sess.pixfmt_cap = .NV12M → 2 ≤ vbuf.bytesused.length →
        b.bytesused[0]? = some ((sess.width * sess.height) % 4294967296) ∧
        b.bytesused[1]? = some ((sess.width * sess.height) % 4294967296 / 2)) ∧
      (sess.pixfmt_cap = .YUV420M → 3 ≤ vbuf.bytesused.length →
        b.bytesused[0]? = some ((sess.width * sess.height) % 4294967296) ∧
        b.bytesused[1]? = some ((sess.width * sess.height) % 4294967296 / 4) ∧
        b.bytesused[2]? = some ((sess.width * sess.height) % 4294967296 / 4)) ∧
      (sess.width * sess.height < 4294967296 →
        (sess.width * sess.height) % 4294967296 = sess.width * sess.height) ∧
      (sess.pixfmt_cap = .NV12M → 2 ≤ vbuf.bytesused.length →
        sess.width = 1920 → sess.height = 1080 →
        b.bytesused[0]? = some 2073600 ∧ b.bytesused[1]? = some 1036800) := by
  obtain ⟨b, hb, -, hbytes, -⟩ := dst_buf_done_completed sess vbuf field timestamp
  have hnv : sess.pixfmt_cap = .NV12M → 2 ≤ vbuf.bytesused.length →
      b.bytesused[0]? = some ((sess.width * sess.height) % 4294967296) ∧
      b.bytesused[1]? = some ((sess.width * sess.height) % 4294967296 / 2) := by
    intro hfmt hlen
    rw [hbytes]
    unfold set_bytesused amvdec_get_output_size
    rw [hfmt]
    rcases hl : vbuf.bytesused with _ | ⟨p0, _ | ⟨p1, rest⟩⟩
    · rw [hl] at hlen
      simp at hlen
    · rw [hl] at hlen
      simp at hlen
    · simp
  refine ⟨b, hb, hnv, ?_, Nat.mod_eq_of_lt, ?_⟩
  · intro hfmt hlen
    rw [hbytes]
    unfold set_bytesused amvdec_get_output_size
    rw [hfmt]
    rcases hl : vbuf.bytesused with _ | ⟨p0, _ | ⟨p1, _ | ⟨p2, rest⟩⟩⟩
    · rw [hl] at hlen
      simp at hlen
    · rw [hl] at hlen
      simp at hlen
    · rw [hl] at hlen
      simp at hlen
    · simp
  · intro hfmt hlen hw hh
    have := hnv hfmt hlen
    rw [hw, hh] at this
    exact this

/-- Instance of C11: a 1920x1080 two-plane frame. -/
theorem dst_buf_done_bytesused_witness :
    ∃ b, (dst_buf_done (sample_session 100000 []) (sample_buffer 0) .NONE 7).buf_done
        = (b, .DONE) :: (sample_session 100000 []).buf_done ∧
      b.bytesused[0]? = some 2073600 ∧ b.bytesused[1]? = some 1036800 := by
  obtain ⟨b, hb, -, -, -, hex⟩ :=
    dst_buf_done_bytesused (sample_session 100000 []) (sample_buffer 0) .NONE 7
  exact ⟨b, hb, hex (by rfl) (by decide) (by rfl) (by rfl)⟩

/-! ## The submit-and-complete scenario -/

theorem scenario_ledger (sess : amvdec_session) (t0 t1 t2 : Nat) (h01 : t0 < t1)
    (h12 : t1 < t2) (hempty : sess.timestamps = []) :
    (amvdec_add_ts_reorder (amvdec_add_ts_reorder (amvdec_add_ts_reorder sess t0 0)
        t1 5000) t2 90000).timestamps = [⟨t0, 0⟩, ⟨t1, 5000⟩, ⟨t2, 90000⟩] := by
  have h1 : ¬ t1 ≤ t0 := by omega
  have h2 : ¬ t2 ≤ t0 := by omega
  have h3 : ¬ t2 ≤ t1 := by omega
  simp [amvdec_add_ts_reorder, add_ts_walk, hempty, h1, h2, h3]

theorem scenario_first_scan (t0 t1 t2 : Nat) (c : Int) :
    offset_scan_walk (reduce_offset 4900 100000) (half_vififo 100000)
      [⟨t0, 0⟩, ⟨t1, 5000⟩, ⟨t2, 90000⟩] c
      = ⟨[], some ⟨t1, 5000⟩, [⟨t2, 90000⟩], atomic_dec c⟩ := by
  have hq : reduce_offset 4900 100000 = 4900 := by decide
  have hh : half_vififo 100000 = 50000 := by decide
  have d0 : ts_delta 4900 ⟨t0, 0⟩ = 4900 :=
    (show ts_delta 4900 ⟨t0, 0⟩ = toS32 (4900 - 0) from rfl).trans (by decide)
  have d1 : ts_delta 4900 ⟨t1, 5000⟩ = -100 :=
    (show ts_delta 4900 ⟨t1, 5000⟩ = toS32 (4900 - 5000) from rfl).trans (by decide)
  have w0 : within_wiggle 4900 = false := by decide
  have s0 : is_stale 4900 50000 = true := by decide
  have w1 : within_wiggle (-100) = true := by decide
  rw [hq, hh]
  simp only [offset_scan_walk, d0, d1, w0, s0, w1, if_true, Bool.false_eq_true, if_false]

theorem scenario_second_scan (t2 : Nat) (c : Int) :
    offset_scan_walk (reduce_offset 200 100000) (half_vififo 100000) [⟨t2, 90000⟩] c
      = ⟨[], none, [], atomic_dec c⟩ := by
  have hq : reduce_offset 200 100000 = 200 := by decide
  have hh : half_vififo 100000 = 50000 := by decide
  have d2 : ts_delta 200 ⟨t2, 90000⟩ = -89800 :=
    (show ts_delta 200 ⟨t2, 90000⟩ = toS32 (200 - 90000) from rfl).trans (by decide)
  have w2 : within_wiggle (-89800) = false := by decide
  have s2 : is_stale (-89800) 50000 = true := by decide
  rw [hq, hh]
  simp only [offset_scan_walk, d2, w2, s2, if_true, Bool.false_eq_true, if_false]

/-- C12: on a FIFO of 100000 bytes, three units submitted with timestamps `t0 < t1 < t2`
at offsets 0, 5000 and 90000 are listed in that order; a completion reported at offset
4900 is stamped with `t1` and leaves only the entry at offset 90000 in the ledger (the
stale entry at offset 0 is purged); a following completion reported at offset 200 evicts
that entry, finds no match and completes its buffer in error state, untouched; the ledger
is then empty. -/
theorem submit_complete_scenario (sess : amvdec_session) (t0 t1 t2 : Nat)
    (vbuf1 vbuf2 : vb2_v4l2_buffer) (field1 field2 : v4l2_field)
    (hsize : sess.vififo_size = 100000) (hempty : sess.timestamps = [])
    (h01 : t0 < t1) (h12 : t1 < t2) :
    (amvdec_add_ts_reorder (amvdec_add_ts_reorder (amvdec_add_ts_reorder sess t0 0)
        t1 5000) t2 90000).timestamps = [⟨t0, 0⟩, ⟨t1, 5000⟩, ⟨t2, 90000⟩] ∧
    (∃ b, (amvdec_dst_buf_done_offset
          (amvdec_add_ts_reorder (amvdec_add_ts_reorder (amvdec_add_ts_reorder sess t0 0)
            t1 5000) t2 90000) vbuf1 4900 field1).buf_done
        = (b, .DONE) :: sess.buf_done ∧ b.timestamp = t1) ∧
    (amvdec_dst_buf_done_offset
        (amvdec_add_ts_reorder (amvdec_add_ts_reorder (amvdec_add_ts_reorder sess t0 0)
          t1 5000) t2 90000) vbuf1 4900 field1).timestamps = [⟨t2, 90000⟩] ∧
    (amvdec_dst_buf_done_offset
        (amvdec_dst_buf_done_offset
          (amvdec_add_ts_reorder (amvdec_add_ts_reorder (amvdec_add_ts_reorder sess t0 0)
            t1 5000) t2 90000) vbuf1 4900 field1) vbuf2 200 field2).buf_done
      = (vbuf2, .ERROR) ::
        (amvdec_dst_buf_done_offset
          (amvdec_add_ts_reorder (amvdec_add_ts_reorder (amvdec_add_ts_reorder sess t0 0)
            t1 5000) t2 90000) vbuf1 4900 field1).buf_done ∧
    (amvdec_dst_buf_done_offset
        (amvdec_dst_buf_done_offset
          (amvdec_add_ts_reorder (amvdec_add_ts_reorder (amvdec_add_ts_reorder sess t0 0)
            t1 5000) t2 90000) vbuf1 4900 field1) vbuf2 200 field2).timestamps = [] := by
  have hl := scenario_ledger sess t0 t1 t2 h01 h12 hempty
  generalize hs1 : amvdec_add_ts_reorder (amvdec_add_ts_reorder
    (amvdec_add_ts_reorder sess t0 0) t1 5000) t2 90000 = s1 at hl ⊢
  have hs1size : s1.vififo_size = 100000 := by rw [← hs1]; exact hsize
  have hs1done : s1.buf_done = sess.buf_done := by rw [← hs1]; rfl
  have hstep1 : amvdec_dst_buf_done_offset s1 vbuf1 4900 field1
      = dst_buf_done { s1 with timestamps := [⟨t2, 90000⟩]
                               esparser_queued_bufs := atomic_dec s1.esparser_queued_bufs }
          vbuf1 field1 t1 := by
    unfold amvdec_dst_buf_done_offset
    simp only [hs1size, hl, scenario_first_scan, List.nil_append]
  generalize hs2 : amvdec_dst_buf_done_offset s1 vbuf1 4900 field1 = s2 at hstep1 ⊢
  have hs2ts : s2.timestamps = [⟨t2, 90000⟩] := by
    rw [hstep1, dst_buf_done_timestamps]
  have hs2size : s2.vififo_size = 100000 := by
    rw [hstep1]
    unfold dst_buf_done v4l2_m2m_buf_done
    simp only
    split <;> exact hs1size
  have hstep2 : amvdec_dst_buf_done_offset s2 vbuf2 200 field2
      = v4l2_m2m_buf_done { s2 with timestamps := []
                                    esparser_queued_bufs := atomic_dec s2.esparser_queued_bufs }
          vbuf2 .ERROR := by
    unfold amvdec_dst_buf_done_offset
    simp only [hs2size, hs2ts, scenario_second_scan]
  refine ⟨hl, ?_, hs2ts, ?_, ?_⟩
  · obtain ⟨b, hb, hts⟩ := dst_buf_done_buf_done
      { s1 with timestamps := [⟨t2, 90000⟩]
                esparser_queued_bufs := atomic_dec s1.esparser_queued_bufs } vbuf1 field1 t1
    exact ⟨b, by rw [hstep1, hb, ← hs1done], hts⟩
  · rw [hstep2]
    rfl
  · rw [hstep2]
    rfl

/-- Instance of C12: timestamps 10, 20 and 30. -/
theorem submit_complete_scenario_witness :
    (amvdec_dst_buf_done_offset
        (amvdec_dst_buf_done_offset
          (amvdec_add_ts_reorder (amvdec_add_ts_reorder
            (amvdec_add_ts_reorder (sample_session 100000 []) 10 0) 20 5000) 30 90000)
          (sample_buffer 0) 4900 .NONE) (sample_buffer 1) 200 .NONE).timestamps = [] :=
  (submit_complete_scenario (sample_session 100000 []) 10 20 30 (sample_buffer 0)
    (sample_buffer 1) .NONE .NONE (by rfl) (by rfl) (by decide) (by decide)).2.2.2.2

/-! ## Completion by buffer index -/

theorem remove_by_idx_none (bufs : List vb2_v4l2_buffer) (idx : Nat)
    (h : ∀ b ∈ bufs, b.index ≠ idx) : v4l2_m2m_dst_buf_remove_by_idx bufs idx = none := by
  unfold v4l2_m2m_dst_buf_remove_by_idx
  have hfind : bufs.find? (fun b => decide (b.index = idx)) = none := by
    rw [List.find?_eq_none]
    intro b hb
    simpa using h b hb
  rw [hfind]

theorem remove_by_idx_some (bufs : List vb2_v4l2_buffer) (idx : Nat)
    (vbuf : vb2_v4l2_buffer) (rest : List vb2_v4l2_buffer)
    (h : v4l2_m2m_dst_buf_remove_by_idx bufs idx = some (vbuf, rest)) :
    vbuf ∈ bufs ∧ vbuf.index = idx := by
  unfold v4l2_m2m_dst_buf_remove_by_idx at h
  rcases hf : bufs.find? (fun b => decide (b.index = idx)) with _ | b
  · rw [hf] at h
    cases h
  · rw [hf] at h
    simp only [Option.some.injEq, Prod.mk.injEq] at h
    rw [← h.1]
    exact ⟨List.mem_of_find?_eq_some hf, by simpa using List.find?_some hf⟩

/-- C13: when the destination queue holds no buffer with the given index,
`amvdec_dst_buf_done_idx` completes no buffer, assigns no sequence number and drops
exactly the head of the ledger, the other entries staying in order (the pending-buffer
counter is decremented for the dropped entry); on an empty ledger the session is left as
it was, ledger and counter included. -/
theorem dst_buf_done_idx_unknown (sess : amvdec_session) (buf_idx : Nat) (offset : Int)
    (field : v4l2_field) (hidx : ∀ b ∈ sess.dst_bufs, b.index ≠ buf_idx) :
    (amvdec_dst_buf_done_idx sess buf_idx offset field).buf_done = sess.buf_done ∧
    (amvdec_dst_buf_done_idx sess buf_idx offset field).sequence_cap = sess.sequence_cap ∧
    (amvdec_dst_buf_done_idx sess buf_idx offset field).timestamps = sess.timestamps.tail ∧
    (sess.timestamps = [] → amvdec_dst_buf_done_idx sess buf_idx offset field = sess) ∧
    (∀ e rest, sess.timestamps = e :: rest →
      amvdec_dst_buf_done_idx sess buf_idx offset field
        = { sess with timestamps := rest
                      esparser_queued_bufs := atomic_dec sess.esparser_queued_bufs }) := by
  have hrm : amvdec_dst_buf_done_idx sess buf_idx offset field = amvdec_rm_first_ts sess := by
    unfold amvdec_dst_buf_done_idx
    rw [remove_by_idx_none _ _ hidx]
  rw [hrm]
  unfold amvdec_rm_first_ts
  rcases hl : sess.timestamps with _ | ⟨e, rest⟩
  · refine ⟨rfl, rfl, hl, fun _ => rfl, ?_⟩
    intro e rest h
    cases h
  · refine ⟨rfl, rfl, rfl, ?_, ?_⟩
    · intro h
      cases h
    · intro e2 rest2 h
      cases h
      rfl

/-- Instance of C13: index 5 on an empty destination queue, ledger of two entries. -/
theorem dst_buf_done_idx_unknown_witness :
    (amvdec_dst_buf_done_idx (sample_session 100000 [⟨10, 0⟩, ⟨20, 5000⟩]) 5 4900
        .NONE).buf_done = (sample_session 100000 [⟨10, 0⟩, ⟨20, 5000⟩]).buf_done ∧
    (amvdec_dst_buf_done_idx (sample_session 100000 [⟨10, 0⟩, ⟨20, 5000⟩]) 5 4900
        .NONE).timestamps = (sample_session 100000 [⟨10, 0⟩, ⟨20, 5000⟩]).timestamps.tail :=
  ⟨(dst_buf_done_idx_unknown (sample_session 100000 [⟨10, 0⟩, ⟨20, 5000⟩]) 5 4900 .NONE
      (by decide)).1,
   (dst_buf_done_idx_unknown (sample_session 100000 [⟨10, 0⟩, ⟨20, 5000⟩]) 5 4900 .NONE
      (by decide)).2.2.1⟩

/-- The exits of `amvdec_dst_buf_done_offset`: the buffer is completed in error state, or
through `dst_buf_done`, on a session `s2` that differs from the given one by its ledger (a
sub-list, strictly shorter when `dst_buf_done` is reached) and its counter. -/
theorem dst_buf_done_offset_cases (sess : amvdec_session) (vbuf : vb2_v4l2_buffer)
    (offset : Int) (field : v4l2_field) :
    ∃ s2 : amvdec_session,
      s2.events = sess.events ∧ s2.buf_done = sess.buf_done ∧
      s2.should_stop = sess.should_stop ∧ s2.sequence_cap = sess.sequence_cap ∧
      s2.timestamps.Sublist sess.timestamps ∧
      (amvdec_dst_buf_done_offset sess vbuf offset field
          = v4l2_m2m_buf_done s2 vbuf .ERROR ∨
        (∃ ts, amvdec_dst_buf_done_offset sess vbuf offset field
            = dst_buf_done s2 vbuf field ts) ∧
          s2.timestamps.length < sess.timestamps.length) := by
  obtain ⟨pre, -, hkept, hcase⟩ := offset_scan_walk_spec
    (reduce_offset offset sess.vififo_size) (half_vififo sess.vififo_size)
    sess.timestamps sess.esparser_queued_bufs
  rcases dst_buf_done_offset_unfold sess vbuf offset field with ⟨hnone, heq⟩ | ⟨m, hm, heq⟩
  · refine ⟨{ sess with
      timestamps := (offset_scan_walk (reduce_offset offset sess.vififo_size)
        (half_vififo sess.vififo_size) sess.timestamps sess.esparser_queued_bufs).kept
      esparser_queued_bufs := (offset_scan_walk (reduce_offset offset sess.vififo_size)
        (half_vififo sess.vififo_size) sess.timestamps sess.esparser_queued_bufs).queued },
      rfl, rfl, rfl, rfl, ?_, Or.inl heq⟩
    rcases hcase with ⟨-, -, hl⟩ | ⟨m, hm, -, -⟩
    · simp only
      rw [hkept, hl]
      exact List.filter_sublist _
    · rw [hnone] at hm
      cases hm
  · rcases hcase with ⟨hnone, -, -⟩ | ⟨m2, -, -, hl⟩
    · rw [hnone] at hm
      cases hm
    · refine ⟨{ sess with
        timestamps := (offset_scan_walk (reduce_offset offset sess.vififo_size)
        (half_vififo sess.vififo_size) sess.timestamps sess.esparser_queued_bufs).kept ++ (offset_scan_walk (reduce_offset offset sess.vififo_size)
        (half_vififo sess.vififo_size) sess.timestamps sess.esparser_queued_bufs).rest
        esparser_queued_bufs := (offset_scan_walk (reduce_offset offset sess.vififo_size)
        (half_vififo sess.vififo_size) sess.timestamps sess.esparser_queued_bufs).queued },
        rfl, rfl, rfl, rfl, ?_, Or.inr ⟨⟨m.ts, heq⟩, ?_⟩⟩
      · simp only
        rw [hkept]
        conv => rhs; rw [hl]
        exact List.Sublist.append (List.filter_sublist _) (List.sublist_cons_self _ _)
      · simp only
        rw [hkept]
        conv => rhs; rw [hl]
        simp only [List.length_append, List.length_cons]
        have := List.length_filter_le
          (fun x => !is_stale (ts_delta (reduce_offset offset sess.vififo_size) x)
            (half_vififo sess.vififo_size)) pre
        omega

/-- The exits of `amvdec_dst_buf_done`, in the same form. -/
theorem dst_buf_done_head_cases (sess : amvdec_session) (vbuf : vb2_v4l2_buffer)
    (field : v4l2_field) :
    ∃ s2 : amvdec_session,
      s2.events = sess.events ∧ s2.buf_done = sess.buf_done ∧
      s2.should_stop = sess.should_stop ∧ s2.sequence_cap = sess.sequence_cap ∧
      s2.timestamps.Sublist sess.timestamps ∧
      (amvdec_dst_buf_done sess vbuf field = v4l2_m2m_buf_done s2 vbuf .ERROR ∨
        (∃ ts, amvdec_dst_buf_done sess vbuf field = dst_buf_done s2 vbuf field ts) ∧
          s2.timestamps.length < sess.timestamps.length) := by
  unfold amvdec_dst_buf_done
  rcases hl : sess.timestamps with _ | ⟨tmp, rest⟩
  · exact ⟨sess, rfl, rfl, rfl, rfl, by rw [hl], Or.inl rfl⟩
  · refine ⟨{ sess with timestamps := rest }, rfl, rfl, rfl, rfl, ?_,
      Or.inr ⟨⟨tmp.ts, rfl⟩, ?_⟩⟩
    · exact List.sublist_cons_self _ _
    · simp

/-- The exits of `amvdec_dst_buf_done_idx`: the index is unknown and the head of the ledger
is dropped; or the buffer `vbuf` of the queue is completed, in error state or through
`dst_buf_done`, on a session `s2` that differs from the given one by its queue, its ledger
(a sub-list, strictly shorter when `dst_buf_done` is reached) and its counter. -/
theorem dst_buf_done_idx_cases (sess : amvdec_session) (buf_idx : Nat) (offset : Int)
    (field : v4l2_field) :
    amvdec_dst_buf_done_idx sess buf_idx offset field = amvdec_rm_first_ts sess ∨
    ∃ vbuf ∈ sess.dst_bufs, ∃ s2 : amvdec_session,
      s2.events = sess.events ∧ s2.buf_done = sess.buf_done ∧
      s2.should_stop = sess.should_stop ∧ s2.sequence_cap = sess.sequence_cap ∧
      s2.timestamps.Sublist sess.timestamps ∧
      (amvdec_dst_buf_done_idx sess buf_idx offset field
          = v4l2_m2m_buf_done s2 vbuf .ERROR ∨
        (∃ ts, amvdec_dst_buf_done_idx sess buf_idx offset field
            = dst_buf_done s2 vbuf field ts) ∧
          s2.timestamps.length < sess.timestamps.length) := by
  unfold amvdec_dst_buf_done_idx
  rcases hrm : v4l2_m2m_dst_buf_remove_by_idx sess.dst_bufs buf_idx with _ | ⟨vbuf, bufs⟩
  · exact Or.inl rfl
  · right
    refine ⟨vbuf, (remove_by_idx_some _ _ _ _ hrm).1, ?_⟩
    simp only
    by_cases hoff : offset ≥ 0
    · simp only [hoff, if_true]
      exact dst_buf_done_offset_cases { sess with dst_bufs := bufs } vbuf offset field
    · simp only [hoff, if_false]
      exact dst_buf_done_head_cases { sess with dst_bufs := bufs } vbuf field

/-! ## End of stream -/

/-- One call of `amvdec_dst_buf_done_idx` queues at most one end-of-stream event, and only
when it leaves the ledger empty; on an empty ledger it queues none. -/
theorem done_idx_eos_step (sess : amvdec_session) (buf_idx : Nat) (offset : Int)
    (field : v4l2_field) :
    ((amvdec_dst_buf_done_idx sess buf_idx offset field).events = sess.events ∨
      ((amvdec_dst_buf_done_idx sess buf_idx offset field).events
          = v4l2_event.EOS :: sess.events ∧
        (amvdec_dst_buf_done_idx sess buf_idx offset field).timestamps = [])) ∧
    (sess.timestamps = [] →
      (amvdec_dst_buf_done_idx sess buf_idx offset field).timestamps = [] ∧
      (amvdec_dst_buf_done_idx sess buf_idx offset field).events = sess.events) := by
  rcases dst_buf_done_idx_cases sess buf_idx offset field with
    hrm | ⟨vbuf, -, s2, hev, -, -, -, hsub, herr | ⟨⟨ts, hdone⟩, hlen⟩⟩
  · rw [hrm]
    unfold amvdec_rm_first_ts
    rcases hl : sess.timestamps with _ | ⟨e, rest⟩
    · exact ⟨Or.inl rfl, fun _ => ⟨hl, rfl⟩⟩
    · refine ⟨Or.inl rfl, fun h => ?_⟩
      cases h
  · rw [herr]
    refine ⟨Or.inl hev, fun h => ⟨?_, hev⟩⟩
    rw [h] at hsub
    exact List.sublist_nil.mp hsub
  · rw [hdone, dst_buf_done_events, dst_buf_done_timestamps]
    constructor
    · by_cases heos : (s2.should_stop && s2.timestamps.isEmpty) = true
      · right
        rw [if_pos heos, hev]
        refine ⟨rfl, ?_⟩
        have := (Bool.and_eq_true _ _).mp heos
        exact List.isEmpty_iff.mp this.2
      · left
        rw [if_neg heos, hev]
    · intro h
      rw [h] at hlen
      simp at hlen

/-- A run of `amvdec_dst_buf_done_idx` calls queues at most one end-of-stream event, and
none when it starts on an empty ledger. -/
theorem done_idx_run_events (calls : List (Nat × Int × v4l2_field))
    (sess : amvdec_session) :
    ((calls.foldl (fun s c => amvdec_dst_buf_done_idx s c.1 c.2.1 c.2.2) sess).events
        = sess.events ∨
      (calls.foldl (fun s c => amvdec_dst_buf_done_idx s c.1 c.2.1 c.2.2) sess).events
        = v4l2_event.EOS :: sess.events) ∧
    (sess.timestamps = [] →
      (calls.foldl (fun s c => amvdec_dst_buf_done_idx s c.1 c.2.1 c.2.2) sess).events
        = sess.events) := by
  induction calls generalizing sess with
  | nil => exact ⟨Or.inl rfl, fun _ => rfl⟩
  | cons c rest ih =>
    obtain ⟨hstep, hempty⟩ := done_idx_eos_step sess c.1 c.2.1 c.2.2
    obtain ⟨hrun, hrunempty⟩ := ih (amvdec_dst_buf_done_idx sess c.1 c.2.1 c.2.2)
    rw [List.foldl_cons]
    constructor
    · rcases hstep with hsame | ⟨heos, hnil⟩
      · rw [hsame] at hrun
        exact hrun
      · right
        rw [hrunempty hnil, heos]
    · intro h
      rw [hrunempty (hempty h).1, (hempty h).2]

/-- C14: in a run of `amvdec_dst_buf_done_idx` calls with no ledger insertion in between
(stop requested or not) the end-of-stream event is queued at most once; and a buffer
taken from the destination queue, where no buffer carries the last-in-stream flag, is
completed with that flag exactly when it is completed successfully while stop is
requested and the ledger is empty once its own entry is removed. -/
theorem eos_once_per_drain (sess : amvdec_session) (calls : List (Nat × Int × v4l2_field)) :
    ((calls.foldl (fun s c => amvdec_dst_buf_done_idx s c.1 c.2.1 c.2.2) sess).events
        = sess.events ∨
      (calls.foldl (fun s c => amvdec_dst_buf_done_idx s c.1 c.2.1 c.2.2) sess).events
        = v4l2_event.EOS :: sess.events) ∧
    (∀ (buf_idx : Nat) (offset : Int) (field : v4l2_field) (b : vb2_v4l2_buffer)
        (st : vb2_buffer_state),
      (∀ x ∈ sess.dst_bufs, x.flag_last = false) →
      (amvdec_dst_buf_done_idx sess buf_idx offset field).buf_done
        = (b, st) :: sess.buf_done →
      (b.flag_last = true ↔
        st = .DONE ∧ sess.should_stop = true ∧
        (amvdec_dst_buf_done_idx sess buf_idx offset field).timestamps = [])) := by
  refine ⟨(done_idx_run_events calls sess).1, ?_⟩
  intro buf_idx offset field b st hflags hres
  rcases dst_buf_done_idx_cases sess buf_idx offset field with
    hrm | ⟨vbuf, hmem, s2, -, hbd, hstop, -, -, herr | ⟨⟨ts, hdone⟩, -⟩⟩
  · rw [hrm] at hres
    have hsame : (amvdec_rm_first_ts sess).buf_done = sess.buf_done := by
      unfold amvdec_rm_first_ts
      split <;> rfl
    rw [hsame] at hres
    have := congrArg List.length hres
    simp at this
  · rw [herr] at hres ⊢
    simp only [v4l2_m2m_buf_done, hbd, List.cons.injEq, Prod.mk.injEq, and_true] at hres
    rw [← hres.1, ← hres.2, hflags vbuf hmem]
    simp
  · obtain ⟨b2, hb2, -, -, -, -, -, hlast⟩ := dst_buf_done_completed s2 vbuf field ts
    rw [hdone] at hres ⊢
    rw [hb2, hbd] at hres
    simp only [List.cons.injEq, Prod.mk.injEq, and_true] at hres
    rw [← hres.1, ← hres.2, hlast, hflags vbuf hmem, dst_buf_done_timestamps, hstop]
    simp [List.isEmpty_iff]

/-- Instance of C14: stop requested, one entry left, its buffer completed by the head of
the ledger. -/
theorem eos_once_per_drain_witness :
    ({ sample_buffer 0 with timestamp := 10, bytesused := [2073600, 1036800, 0]
                            flag_last := true } : vb2_v4l2_buffer).flag_last = true ↔
      vb2_buffer_state.DONE = .DONE ∧
      ({ sample_session 100000 [⟨10, 0⟩] with
          should_stop := true, dst_bufs := [sample_buffer 0] } :
        amvdec_session).should_stop = true ∧
      (amvdec_dst_buf_done_idx
        { sample_session 100000 [⟨10, 0⟩] with
          should_stop := true, dst_bufs := [sample_buffer 0] } 0 (-1) .NONE).timestamps
        = [] :=
  (eos_once_per_drain
    { sample_session 100000 [⟨10, 0⟩] with
      should_stop := true, dst_bufs := [sample_buffer 0] } []).2 0 (-1) .NONE
    { sample_buffer 0 with timestamp := 10, bytesused := [2073600, 1036800, 0]
                           flag_last := true } .DONE (by decide) (by rfl)

/-! ## The threaded interrupt handler -/

theorem read_write_dos_ne (core : amvdec_core) (reg reg2 val : Nat) (h : reg2 ≠ reg) :
    amvdec_read_dos (amvdec_write_dos core reg val) reg2 = amvdec_read_dos core reg2 := by
  unfold amvdec_read_dos amvdec_write_dos
  simp only
  rw [Function.update_noteq h]

theorem isr_cmd_eq (status : Nat) : (status &&& CMD_MASK) % 256 = status % 256 := by
  unfold CMD_MASK
  rw [mask_low]
  norm_num

/-- After the tail of the handler ran for a command that is neither 0 nor set-parameters,
the status register reads zero. -/
theorem isr_finish_clears (env : vdec_env) (core : amvdec_core) (cmd : Nat)
    (h0 : cmd ≠ 0) (h1 : cmd ≠ 1) :
    amvdec_read_dos (h264_isr_finish env core cmd) env.AV_SCRATCH_0 = 0 := by
  unfold h264_isr_finish CMD_SET_PARAM
  simp only [h0, h1, ne_eq, not_false_eq_true, and_self, if_true]
  split
  · by_cases hj : env.AV_SCRATCH_0 = env.AV_SCRATCH_J
    · rw [hj, read_write_dos]
    · rw [read_write_dos_ne _ _ _ _ hj, read_write_dos]
  · rw [read_write_dos]

/-- For the set-parameters command the tail of the handler leaves the status register as
it finds it. -/
theorem isr_finish_keeps (env : vdec_env) (core : amvdec_core)
    (hj : env.AV_SCRATCH_J ≠ env.AV_SCRATCH_0) :
    amvdec_read_dos (h264_isr_finish env core 1) env.AV_SCRATCH_0
      = amvdec_read_dos core env.AV_SCRATCH_0 := by
  unfold h264_isr_finish CMD_SET_PARAM
  simp only [ne_eq, not_true_eq_false, and_false, if_false]
  split
  · exact read_write_dos_ne _ _ _ _ (Ne.symm hj)
  · rfl

theorem control_word_ne_zero (mr n : Nat) (hmr : mr < 128) :
    (((mr + 1) <<< 24) ||| (n <<< 16) ||| (max 4 mr <<< 8)) % 4294967296 ≠ 0 := by
  intro h
  have hlow : (((mr + 1) <<< 24) ||| (n <<< 16) ||| (max 4 mr <<< 8)) % 2 ^ 16
      = (max 4 mr <<< 8) % 2 ^ 16 := by
    rw [or_mod_pow, or_mod_pow]
    have ha : ((mr + 1) <<< 24) % 2 ^ 16 = 0 := by
      rw [Nat.shiftLeft_eq]
      norm_num
      omega
    have hb : (n <<< 16) % 2 ^ 16 = 0 := by
      rw [Nat.shiftLeft_eq]
      norm_num
    rw [ha, hb]
    simp
  have hd : 4 ≤ max 4 mr := le_max_left _ _
  have hd2 : max 4 mr < 128 := by omega
  generalize max 4 mr = d at *
  generalize ((mr + 1) <<< 24) ||| (n <<< 16) ||| (d <<< 8) = x at *
  rw [Nat.shiftLeft_eq] at hlow
  norm_num at hlow
  omega

/-- C15, as stated, fails: with the fatal-error command (6) in the status register, which
is non-zero and not set-parameters, the handler returns with the register still reading
6. -/
theorem threaded_isr_fatal_keeps_status :
    (amvdec_read_dos (sample_h264_session 6 []).core sample_env.AV_SCRATCH_0) % 256 = 6 ∧
    (codec_h264_threaded_isr sample_env (fun _ => some 65536)
        (sample_h264_session 6 [])).map
      (fun s => amvdec_read_dos s.core sample_env.AV_SCRATCH_0) = some 6 :=
  ⟨by decide, by rfl⟩

/-- C15, amended: for a status word whose command code (low 8 bits) is none of 0,
set-parameters (1), fatal-error (6), bad-width (7) and bad-height (8),
`codec_h264_threaded_isr` returns with `AV_SCRATCH_0` reading zero; for the three aborting
commands it aborts the session and leaves the registers as they are; for set-parameters
it does not clear the register: `AV_SCRATCH_0` reads what `codec_h264_set_param` left in
it, which is not zero when the reference buffer was allocated. The SEI flag register is
taken to be another register than `AV_SCRATCH_0`. -/
theorem threaded_isr_status (env : vdec_env) (dma_alloc_coherent : Nat → Option Nat)
    (sess : amvdec_session) (status : Nat)
    (hstatus : amvdec_read_dos sess.core env.AV_SCRATCH_0 = status) :
    (status % 256 ≠ 0 → status % 256 ≠ 1 → status % 256 ≠ 6 → status % 256 ≠ 7 →
      status % 256 ≠ 8 →
      ∃ s, codec_h264_threaded_isr env dma_alloc_coherent sess = some s ∧
        amvdec_read_dos s.core env.AV_SCRATCH_0 = 0) ∧
    (status % 256 = 6 ∨ status % 256 = 7 ∨ status % 256 = 8 →
      ∃ s, codec_h264_threaded_isr env dma_alloc_coherent sess = some s ∧
        s.aborted = true ∧ s.core = sess.core) ∧
    (status % 256 = 1 → env.AV_SCRATCH_J ≠ env.AV_SCRATCH_0 →
      ∀ s0, codec_h264_set_param env dma_alloc_coherent sess = some s0 →
        ∃ s, codec_h264_threaded_isr env dma_alloc_coherent sess = some s ∧
          amvdec_read_dos s.core env.AV_SCRATCH_0
            = amvdec_read_dos s0.core env.AV_SCRATCH_0) ∧
    (status % 256 = 1 → env.AV_SCRATCH_J ≠ env.AV_SCRATCH_0 →
      ∀ h264 word paddr, sess.priv = some h264 →
        amvdec_read_dos sess.core env.AV_SCRATCH_1 = word → word % 256 ≠ 0 →
        dma_alloc_coherent (h264_ref_size word) = some paddr →
        ∃ s, codec_h264_threaded_isr env dma_alloc_coherent sess = some s ∧
          amvdec_read_dos s.core env.AV_SCRATCH_0 ≠ 0) := by
  have hset : status % 256 = 1 → env.AV_SCRATCH_J ≠ env.AV_SCRATCH_0 →
      ∀ s0, codec_h264_set_param env dma_alloc_coherent sess = some s0 →
        ∃ s, codec_h264_threaded_isr env dma_alloc_coherent sess = some s ∧
          amvdec_read_dos s.core env.AV_SCRATCH_0
            = amvdec_read_dos s0.core env.AV_SCRATCH_0 := by
    intro hcmd hj s0 hs0
    unfold codec_h264_threaded_isr
    simp only [hstatus, isr_cmd_eq, hcmd, CMD_SET_PARAM, if_true, hs0]
    exact ⟨_, rfl, isr_finish_keeps env s0.core hj⟩
  refine ⟨?_, ?_, hset, ?_⟩
  · intro h0 h1 h6 h7 h8
    unfold codec_h264_threaded_isr
    simp only [hstatus, isr_cmd_eq, CMD_SET_PARAM, CMD_FRAMES_READY, CMD_FATAL_ERROR,
      CMD_BAD_WIDTH, CMD_BAD_HEIGHT, h1, h6, h7, h8, if_false, or_self]
    split
    · exact ⟨_, rfl, isr_finish_clears env _ _ h0 h1⟩
    · exact ⟨_, rfl, isr_finish_clears env _ _ h0 h1⟩
  · intro hcmd
    unfold codec_h264_threaded_isr
    have h1 : status % 256 ≠ 1 := by omega
    have h2 : status % 256 ≠ 2 := by omega
    simp only [hstatus, isr_cmd_eq, CMD_SET_PARAM, CMD_FRAMES_READY, CMD_FATAL_ERROR,
      CMD_BAD_WIDTH, CMD_BAD_HEIGHT, h1, h2, hcmd, if_false, if_true]
    exact ⟨_, rfl, rfl, rfl⟩
  · intro hcmd hj h264 word paddr hpriv hword hwidth halloc
    have hmr : word / 16777216 % 128 < 128 := Nat.mod_lt _ (by norm_num)
    rcases set_param_unfold env dma_alloc_coherent sess h264 word hpriv hword hwidth with
      ⟨hnone, -⟩ | ⟨paddr2, -, s0, hs0, -, hreg⟩
    · rw [hnone] at halloc
      cases halloc
    · obtain ⟨s, hs, hread⟩ := hset hcmd hj s0 hs0
      refine ⟨s, hs, ?_⟩
      rw [hread, hreg, h264_max_reference_size_eq]
      unfold v4l2_m2m_num_dst_bufs_ready
      rw [control_word_eq _ _ hmr]
      exact control_word_ne_zero _ _ hmr

/-- Instance of the amended C15: the unused command 9 on a session whose registers all
read 9. -/
theorem threaded_isr_status_witness :
    ∃ s, codec_h264_threaded_isr sample_env (fun _ => some 65536)
        (sample_h264_session 9 []) = some s ∧
      amvdec_read_dos s.core sample_env.AV_SCRATCH_0 = 0 :=
  (threaded_isr_status sample_env (fun _ => some 65536) (sample_h264_session 9 []) 9
    (by rfl)).1 (by decide) (by decide) (by decide) (by decide) (by decide)

/-! ## Buffer recycling -/

/-- C16: when `codec_h264_can_recycle` holds and the buffer index is below `2 ^ 32 - 1`,
`codec_h264_recycle` writes the index plus one, which is not zero, into `AV_SCRATCH_7` if
that mailbox reads zero and into `AV_SCRATCH_8`, which then reads zero, otherwise; every
other register, the other mailbox included, is left as it was; and after a second recycle
with nothing consumed in between `codec_h264_can_recycle` is false. The two mailboxes are
distinct registers. -/
theorem recycle_mailbox (env : vdec_env) (core : amvdec_core) (buf_idx : Nat)
    (h78 : env.AV_SCRATCH_7 ≠ env.AV_SCRATCH_8)
    (hcan : codec_h264_can_recycle env core = true) (hidx : buf_idx < 4294967295) :
    (amvdec_read_dos core env.AV_SCRATCH_7 = 0 →
      amvdec_read_dos (codec_h264_recycle env core buf_idx) env.AV_SCRATCH_7 = buf_idx + 1 ∧
      ∀ reg, reg ≠ env.AV_SCRATCH_7 →
        amvdec_read_dos (codec_h264_recycle env core buf_idx) reg
          = amvdec_read_dos core reg) ∧
    (amvdec_read_dos core env.AV_SCRATCH_7 ≠ 0 →
      amvdec_read_dos core env.AV_SCRATCH_8 = 0 ∧
      amvdec_read_dos (codec_h264_recycle env core buf_idx) env.AV_SCRATCH_8 = buf_idx + 1 ∧
      ∀ reg, reg ≠ env.AV_SCRATCH_8 →
        amvdec_read_dos (codec_h264_recycle env core buf_idx) reg
          = amvdec_read_dos core reg) ∧
    buf_idx + 1 ≠ 0 ∧
    (∀ idx2, idx2 < 4294967295 →
      codec_h264_can_recycle env
        (codec_h264_recycle env (codec_h264_recycle env core buf_idx) idx2) = false) := by
  have hval : (buf_idx + 1) % 4294967296 = buf_idx + 1 := Nat.mod_eq_of_lt (by omega)
  refine ⟨?_, ?_, by omega, ?_⟩
  · intro h7
    unfold codec_h264_recycle
    rw [if_pos h7, read_write_dos, hval]
    exact ⟨rfl, fun reg hreg => read_write_dos_ne _ _ _ _ hreg⟩
  · intro h7
    have h8 : amvdec_read_dos core env.AV_SCRATCH_8 = 0 := by
      unfold codec_h264_can_recycle at hcan
      simpa [h7] using hcan
    unfold codec_h264_recycle
    rw [if_neg h7, read_write_dos, hval]
    exact ⟨h8, rfl, fun reg hreg => read_write_dos_ne _ _ _ _ hreg⟩
  · intro idx2 hidx2
    have hval2 : (idx2 + 1) % 4294967296 = idx2 + 1 := Nat.mod_eq_of_lt (by omega)
    have hfull : ∀ c : amvdec_core, amvdec_read_dos c env.AV_SCRATCH_7 ≠ 0 →
        codec_h264_can_recycle env (codec_h264_recycle env c idx2) = false := by
      intro c hc
      unfold codec_h264_recycle
      rw [if_neg hc]
      unfold codec_h264_can_recycle
      rw [read_write_dos, read_write_dos_ne _ _ _ _ h78, hval2]
      simp [hc]
    apply hfull
    unfold codec_h264_recycle
    by_cases h7 : amvdec_read_dos core env.AV_SCRATCH_7 = 0
    · rw [if_pos h7, read_write_dos, hval]
      omega
    · rw [if_neg h7, read_write_dos_ne _ _ _ _ h78]
      exact h7

/-- Instance of C16: both mailboxes empty, buffer index 0. -/
theorem recycle_mailbox_witness :
    amvdec_read_dos (codec_h264_recycle sample_env (sample_core 0) 0)
        sample_env.AV_SCRATCH_7 = 0 + 1 ∧
    codec_h264_can_recycle sample_env
      (codec_h264_recycle sample_env (codec_h264_recycle sample_env (sample_core 0) 0) 3)
      = false :=
  ⟨((recycle_mailbox sample_env (sample_core 0) 0 (by decide) (by rfl) (by decide)).1
      (by rfl)).1,
   (recycle_mailbox sample_env (sample_core 0) 0 (by decide) (by rfl) (by decide)).2.2.2
      3 (by decide)⟩

/-! ## Frames ready -/

theorem and_high_half (r : Nat) (h : r < 4294967296) :
    r &&& 0xffff0000 = r / 65536 * 65536 := by
  have hmask : (0xffff0000 : Nat) = (2 ^ 16 - 1) <<< 16 := by decide
  have hrhs : r / 65536 * 65536 = (r >>> 16) <<< 16 := by
    rw [Nat.shiftLeft_eq, Nat.shiftRight_eq_div_pow]
  rw [hmask, hrhs]
  apply Nat.eq_of_testBit_eq
  intro j
  simp only [Nat.testBit_and, Nat.testBit_shiftLeft, Nat.testBit_two_pow_sub_one,
    Nat.testBit_shiftRight]
  by_cases hj : j ≥ 16
  · have hadd : 16 + (j - 16) = j := by omega
    rw [hadd]
    by_cases hj2 : j - 16 < 16
    · simp [hj, hj2]
    · have hbig : r < 2 ^ j :=
        Nat.lt_of_lt_of_le h (by
          have : (4294967296 : Nat) = 2 ^ 32 := by norm_num
          rw [this]
          exact Nat.pow_le_pow_right (by norm_num) (by omega))
      rw [Nat.testBit_lt_two_pow hbig]
      simp
  · simp [hj]

theorem toU32_natCast (x : Nat) (h : x < 4294967296) : toU32 (x : Int) = x := by
  unfold toU32
  have : (x : Int) % 4294967296 = x := Int.emod_eq_of_lt (by omega) (by omega)
  rw [this]
  simp

theorem toU32_toS32_natCast (x : Nat) (h : x < 4294967296) : toU32 (toS32 (x : Int)) = x := by
  unfold toU32 toS32
  simp only
  split <;> omega

theorem toS32_range (x : Int) : -2147483648 ≤ toS32 x ∧ toS32 x < 2147483648 := by
  unfold toS32
  simp only
  split <;> omega

/-- The 32-bit pattern of `get_offset_msb`: the selected half of the offset register,
moved to the high half. -/
theorem get_offset_msb_bits (env : vdec_env) (core : amvdec_core) (i : Nat) :
    toU32 (get_offset_msb env core i)
      = 65536 * (if i % 2 = 1 then
            amvdec_read_dos core ((env.AV_SCRATCH_A + i / 2 * 4) % 4294967296) / 65536
          else
            amvdec_read_dos core ((env.AV_SCRATCH_A + i / 2 * 4) % 4294967296) % 65536) := by
  have hr : amvdec_read_dos core ((env.AV_SCRATCH_A + i / 2 * 4) % 4294967296) < 4294967296 :=
    Nat.mod_lt _ (by norm_num)
  unfold get_offset_msb
  simp only
  generalize amvdec_read_dos core ((env.AV_SCRATCH_A + i / 2 * 4) % 4294967296) = r at *
  by_cases hodd : i % 2 = 1
  · have hne : i % 2 ≠ 0 := by omega
    rw [if_pos hne, if_pos hodd, and_high_half r hr, toU32_toS32_natCast _ (by omega)]
    omega
  · have heven : ¬ i % 2 ≠ 0 := by omega
    rw [if_neg heven, if_neg hodd]
    have hmasklow : r &&& 0x0000ffff = r % 65536 := by
      have := Nat.and_pow_two_sub_one_eq_mod r 16
      norm_num at this
      exact this
    have hmod : ((r &&& 0x0000ffff) <<< 16) % 4294967296 = 65536 * (r % 65536) := by
      rw [hmasklow, Nat.shiftLeft_eq]
      norm_num
      omega
    rw [hmod, toU32_toS32_natCast _ (by omega)]

/-- The 32-bit pattern of the offset handed over for frame `i`: the low half comes from the
frame status word, the high half from the offset register. -/
theorem h264_frame_offset_bits (env : vdec_env) (core : amvdec_core) (i : Nat) :
    toU32 (h264_frame_args env core i).2.1
      = amvdec_read_dos core ((env.AV_SCRATCH_1 + i * 4) % 4294967296) / 65536
        + 65536 * (if i % 2 = 1 then
            amvdec_read_dos core ((env.AV_SCRATCH_A + i / 2 * 4) % 4294967296) / 65536
          else
            amvdec_read_dos core ((env.AV_SCRATCH_A + i / 2 * 4) % 4294967296) % 65536) := by
  have hw : amvdec_read_dos core ((env.AV_SCRATCH_1 + i * 4) % 4294967296) < 4294967296 :=
    Nat.mod_lt _ (by norm_num)
  have hhi : (if i % 2 = 1 then
        amvdec_read_dos core ((env.AV_SCRATCH_A + i / 2 * 4) % 4294967296) / 65536
      else
        amvdec_read_dos core ((env.AV_SCRATCH_A + i / 2 * 4) % 4294967296) % 65536)
      < 65536 := by
    have hr : amvdec_read_dos core ((env.AV_SCRATCH_A + i / 2 * 4) % 4294967296)
        < 4294967296 := Nat.mod_lt _ (by norm_num)
    split <;> omega
  have hmsb := get_offset_msb_bits env core i
  unfold h264_frame_args OFFSET_BIT OFFSET_MASK
  simp only [mask_low, Nat.shiftRight_eq_div_pow]
  rw [hmsb]
  generalize (if i % 2 = 1 then
        amvdec_read_dos core ((env.AV_SCRATCH_A + i / 2 * 4) % 4294967296) / 65536
      else
        amvdec_read_dos core ((env.AV_SCRATCH_A + i / 2 * 4) % 4294967296) % 65536) = hi at *
  generalize amvdec_read_dos core ((env.AV_SCRATCH_1 + i * 4) % 4294967296) = w at *
  have hlo : w / 2 ^ 16 % 2 ^ (15 + 1) = w / 65536 := by
    norm_num
    omega
  have hlolt : w / 65536 < 65536 := by omega
  rw [hlo, toU32_natCast _ (by omega)]
  have hor : w / 65536 ||| 65536 * hi = 65536 * hi + w / 65536 := by
    have := Nat.mul_add_lt_is_or (show w / 65536 < 2 ^ 16 by omega) hi
    rw [Nat.lor_comm]
    exact this.symm
  rw [hor, toU32_toS32_natCast _ (by omega)]
  omega

theorem h264_frame_offset_range (env : vdec_env) (core : amvdec_core) (i : Nat) :
    -2147483648 ≤ (h264_frame_args env core i).2.1 ∧
    (h264_frame_args env core i).2.1 < 2147483648 := by
  unfold h264_frame_args
  simp only
  exact toS32_range _

theorem dst_buf_done_idx_core (sess : amvdec_session) (buf_idx : Nat) (offset : Int)
    (field : v4l2_field) :
    (amvdec_dst_buf_done_idx sess buf_idx offset field).core = sess.core := by
  unfold amvdec_dst_buf_done_idx
  rcases v4l2_m2m_dst_buf_remove_by_idx sess.dst_bufs buf_idx with _ | ⟨vbuf, bufs⟩
  · simp only
    unfold amvdec_rm_first_ts
    split <;> rfl
  · simp only
    split
    · rcases dst_buf_done_offset_unfold { sess with dst_bufs := bufs } vbuf offset field
        with ⟨-, heq⟩ | ⟨m, -, heq⟩
      · rw [heq]
        rfl
      · rw [heq, dst_buf_done_core]
    · unfold amvdec_dst_buf_done
      simp only
      split
      · rfl
      · rw [dst_buf_done_core]

/-- The loop of `codec_h264_frames_ready` reads the same registers on every turn: it is
the run of `amvdec_dst_buf_done_idx` over the arguments computed from the registers it
starts with. -/
theorem h264_frame_loop (env : vdec_env) (frames : List Nat) (sess : amvdec_session) :
    frames.foldl (h264_frame_done env) sess
      = (frames.map (h264_frame_args env sess.core)).foldl
          (fun s a => amvdec_dst_buf_done_idx s a.1 a.2.1 a.2.2) sess := by
  induction frames generalizing sess with
  | nil => rfl
  | cons i rest ih =>
    rw [List.foldl_cons, List.map_cons, List.foldl_cons, ih]
    have hcore : (h264_frame_done env sess i).core = sess.core := by
      unfold h264_frame_done
      exact dst_buf_done_idx_core _ _ _ _
    rw [hcore]
    rfl

/-- C17: `codec_h264_frames_ready` calls the completion dispatcher once per frame index
below the frame count (bits 8-15 of the status word), in index order, on the registers as
they stand once the error count is acknowledged. For frame `i` it passes the buffer index
held in bits 0-4 of the `i`-th frame status word and an `s32` offset whose 32-bit pattern
has bits 16-31 of that status word as its low half and, as its high half, the high half
of offset register `i / 2` when `i` is odd and its low half when `i` is even. -/
theorem frames_ready_dispatch (env : vdec_env) (sess : amvdec_session) (status : Nat) :
    codec_h264_frames_ready env sess status
      = ((List.range (status / 256 % 256)).map
            (h264_frame_args env (h264_ack_errors env sess.core))).foldl
          (fun s a => amvdec_dst_buf_done_idx s a.1 a.2.1 a.2.2)
          { sess with core := h264_ack_errors env sess.core } ∧
    ∀ i,
      (h264_frame_args env (h264_ack_errors env sess.core) i).1
        = amvdec_read_dos (h264_ack_errors env sess.core)
            ((env.AV_SCRATCH_1 + i * 4) % 4294967296) % 32 ∧
      toU32 (h264_frame_args env (h264_ack_errors env sess.core) i).2.1 % 65536
        = amvdec_read_dos (h264_ack_errors env sess.core)
            ((env.AV_SCRATCH_1 + i * 4) % 4294967296) / 65536 ∧
      toU32 (h264_frame_args env (h264_ack_errors env sess.core) i).2.1 / 65536
        = (if i % 2 = 1 then
            amvdec_read_dos (h264_ack_errors env sess.core)
              ((env.AV_SCRATCH_A + i / 2 * 4) % 4294967296) / 65536
          else
            amvdec_read_dos (h264_ack_errors env sess.core)
              ((env.AV_SCRATCH_A + i / 2 * 4) % 4294967296) % 65536) ∧
      -2147483648 ≤ (h264_frame_args env (h264_ack_errors env sess.core) i).2.1 ∧
      (h264_frame_args env (h264_ack_errors env sess.core) i).2.1 < 2147483648 := by
  constructor
  · unfold codec_h264_frames_ready
    simp only
    have hn : (status >>> 8) &&& 0xff = status / 256 % 256 := by
      have := Nat.and_pow_two_sub_one_eq_mod (status >>> 8) 8
      norm_num at this
      rw [this, Nat.shiftRight_eq_div_pow]
    rw [hn, h264_frame_loop]
  · intro i
    have hbits := h264_frame_offset_bits env (h264_ack_errors env sess.core) i
    have hw : amvdec_read_dos (h264_ack_errors env sess.core)
        ((env.AV_SCRATCH_1 + i * 4) % 4294967296) < 4294967296 :=
      Nat.mod_lt _ (by norm_num)
    have hr : amvdec_read_dos (h264_ack_errors env sess.core)
        ((env.AV_SCRATCH_A + i / 2 * 4) % 4294967296) < 4294967296 :=
      Nat.mod_lt _ (by norm_num)
    refine ⟨?_, ?_, ?_, ?_⟩
    · unfold h264_frame_args BUF_IDX_MASK
      simp only [mask_low]
      norm_num
    · rw [hbits]
      omega
    · rw [hbits]
      split <;> omega
    · exact h264_frame_offset_range env _ i

/-- Instance of C17: frame 1 on a register file whose registers all read `0x12345678`. -/
theorem frames_ready_dispatch_witness :
    (h264_frame_args sample_env
        (h264_ack_errors sample_env (sample_h264_session 305419896 []).core) 1).1
      = amvdec_read_dos (h264_ack_errors sample_env (sample_h264_session 305419896 []).core)
          ((sample_env.AV_SCRATCH_1 + 1 * 4) % 4294967296) % 32 :=
  ((frames_ready_dispatch sample_env (sample_h264_session 305419896 []) 513).2 1).1

/-! ## Extended firmware -/

/-- C18: with a length below 20480 `codec_h264_load_extended_firmware` returns `-EINVAL`,
makes no request to an allocator and leaves the session, its codec state included, as it
was; with a length of at least 20480 the return value is not `-EINVAL`, and when it is 0
the codec state holds the first 20480 bytes of the input as its firmware blob. -/
theorem load_extended_firmware_length (kzalloc : Bool)
    (dma_alloc_coherent : Nat → Option Nat) (sess : amvdec_session) (data : List Nat)
    (len : Nat) :
    (len < 20480 →
      codec_h264_load_extended_firmware kzalloc dma_alloc_coherent sess data len
        = (-EINVAL, [], sess)) ∧
    (20480 ≤ len →
      (codec_h264_load_extended_firmware kzalloc dma_alloc_coherent sess data len).1
        ≠ -EINVAL ∧
      ((codec_h264_load_extended_firmware kzalloc dma_alloc_coherent sess data len).1 = 0 →
        ∃ h, (codec_h264_load_extended_firmware kzalloc dma_alloc_coherent sess data
            len).2.2.priv = some h ∧
          h.ext_fw_vaddr = some (data.take 20480) ∧
          (len ≤ data.length → (data.take 20480).length = 20480))) := by
  have hsz : SIZE_EXT_FW = 20480 := by decide
  constructor
  · intro h
    unfold codec_h264_load_extended_firmware
    rw [hsz, if_pos h]
  · intro h
    have hlen : ¬ len < 20480 := by omega
    unfold codec_h264_load_extended_firmware
    rw [hsz, if_neg hlen]
    cases kzalloc
    · simp only [Bool.not_false, if_true]
      exact ⟨by decide, fun h0 => absurd h0 (by decide)⟩
    · simp only [Bool.not_true, Bool.false_eq_true, if_false]
      rcases dma_alloc_coherent 20480 with _ | paddr
      · simp only
        exact ⟨by decide, fun h0 => absurd h0 (by decide)⟩
      · simp only
        refine ⟨by decide, fun _ => ⟨_, rfl, rfl, ?_⟩⟩
        intro hdata
        rw [List.length_take]
        omega

/-- Instance of C18: a length of 100 bytes, and a blob of 20480 bytes with both
allocations succeeding. -/
theorem load_extended_firmware_length_witness :
    codec_h264_load_extended_firmware true (fun _ => some 65536) (sample_session 100000 [])
        (List.replicate 100 7) 100 = (-EINVAL, [], sample_session 100000 []) ∧
    (codec_h264_load_extended_firmware true (fun _ => some 65536) (sample_session 100000 [])
        (List.replicate 20480 7) 20480).1 ≠ -EINVAL :=
  ⟨(load_extended_firmware_length true (fun _ => some 65536) (sample_session 100000 [])
      (List.replicate 100 7) 100).1 (by decide),
   ((load_extended_firmware_length true (fun _ => some 65536) (sample_session 100000 [])
      (List.replicate 20480 7) 20480).2 (by decide)).1⟩

/-! ## Eviction -/

/-- The scan on a ledger that splits at its first entry within the wiggle room. -/
theorem offset_scan_walk_at_match (q half : Int) (pre : List amvdec_timestamp)
    (m : amvdec_timestamp) (post : List amvdec_timestamp) (c : Int)
    (hpre : ∀ x ∈ pre, within_wiggle (ts_delta q x) = false)
    (hm : within_wiggle (ts_delta q m) = true) :
    (offset_scan_walk q half (pre ++ m :: post) c).kept
      = pre.filter (fun x => !is_stale (ts_delta q x) half) ∧
    (offset_scan_walk q half (pre ++ m :: post) c).found = some m ∧
    (offset_scan_walk q half (pre ++ m :: post) c).rest = post := by
  induction pre generalizing c with
  | nil => simp [offset_scan_walk, hm]
  | cons tmp n ih =>
    have hw := hpre tmp (List.mem_cons_self _ _)
    have hn : ∀ x ∈ n, within_wiggle (ts_delta q x) = false :=
      fun x hx => hpre x (List.mem_cons_of_mem _ hx)
    by_cases hs : is_stale (ts_delta q tmp) half = true
    · obtain ⟨h1, h2, h3⟩ := ih (atomic_dec c) hn
      have hstep : offset_scan_walk q half (tmp :: (n ++ m :: post)) c
          = offset_scan_walk q half (n ++ m :: post) (atomic_dec c) := by
        simp only [offset_scan_walk, hw, hs, Bool.false_eq_true, if_false, if_true]
      rw [List.cons_append, hstep]
      exact ⟨by rw [h1]; simp [hs], h2, h3⟩
    · have hs2 : is_stale (ts_delta q tmp) half = false := by simpa using hs
      obtain ⟨h1, h2, h3⟩ := ih c hn
      have hstep : offset_scan_walk q half (tmp :: (n ++ m :: post)) c
          = { offset_scan_walk q half (n ++ m :: post) c with
              kept := tmp :: (offset_scan_walk q half (n ++ m :: post) c).kept } := by
        simp only [offset_scan_walk, hw, hs2, Bool.false_eq_true, if_false]
      rw [List.cons_append, hstep]
      exact ⟨by simp only; rw [h1]; simp [hs2], h2, h3⟩

/-- The scan on a ledger without any entry within the wiggle room. -/
theorem offset_scan_walk_no_match (q half : Int) (l : List amvdec_timestamp) (c : Int)
    (hl : ∀ x ∈ l, within_wiggle (ts_delta q x) = false) :
    (offset_scan_walk q half l c).kept = l.filter (fun x => !is_stale (ts_delta q x) half) ∧
    (offset_scan_walk q half l c).found = none := by
  obtain ⟨pre, -, hkept, hcase⟩ := offset_scan_walk_spec q half l c
  rcases hcase with ⟨hnone, -, hlp⟩ | ⟨m, -, hwin, hlp⟩
  · exact ⟨by rw [hkept, hlp], hnone⟩
  · have hmem : m ∈ l := by
      rw [hlp]
      exact List.mem_append_right _ (List.mem_cons_self _ _)
    rw [hl m hmem] at hwin
    cases hwin

/-- The staleness test of the code, on non-negative `s32` offsets and a FIFO size below
`2 ^ 31`, against the comparison of the exact difference with half the FIFO size. -/
theorem stale_filter_eq (q : Int) (size : Nat) (l : List amvdec_timestamp)
    (hq0 : 0 ≤ q) (hq1 : q < 2147483648) (hsize : size < 2147483648)
    (hl : ∀ e ∈ l, 0 ≤ e.offset ∧ e.offset < 2147483648) :
    l.filter (fun x => !is_stale (ts_delta q x) (half_vififo size))
      = l.filter (fun e =>
          decide (¬ (0 < q - e.offset ∨ q - e.offset < -((size : Int) / 2)))) := by
  apply List.filter_congr
  intro e he
  have hiff := is_stale_iff q (half_vififo size) e hq0 hq1 (hl e he).1 (hl e he).2
  rw [half_vififo_eq _ hsize] at hiff ⊢
  by_cases hst : (0 < q - e.offset ∨ q - e.offset < -((size : Int) / 2))
  · rw [hiff.mpr hst, decide_eq_false (not_not.mpr hst)]
    rfl
  · have hf : is_stale (ts_delta q e) ((size : Int) / 2) = false := by
      rcases hb : is_stale (ts_delta q e) ((size : Int) / 2) with _ | _
      · rfl
      · exact absurd (hiff.mp hb) hst
    rw [hf, decide_eq_true hst]
    rfl

/-- C19: with `delta` the reported offset reduced modulo the FIFO size minus the entry
offset, `amvdec_dst_buf_done_offset` removes, among the entries in front of the first
entry within the window of 4096 (all the entries when there is none), exactly those with
`delta > 0` or `delta < -(FIFO size / 2)` and keeps the others in their order; the matched
entry goes too and the entries behind it stay. When no entry matches, what is left is the
sub-list of the entries with `-(FIFO size / 2) <= delta <= -4096`. Offsets and the FIFO
size are non-negative `s32` values. -/
theorem dst_buf_done_offset_evicts (sess : amvdec_session) (vbuf : vb2_v4l2_buffer)
    (offset : Int) (field : v4l2_field)
    (_hsize : 0 < sess.vififo_size) (hsize1 : sess.vififo_size < 2147483648)
    (hoff0 : 0 ≤ offset) (hoff1 : offset < 2147483648)
    (hled : ∀ e ∈ sess.timestamps, 0 ≤ e.offset ∧ e.offset < 2147483648) :
    (∀ pre m post, sess.timestamps = pre ++ m :: post →
      (∀ x ∈ pre, 4096 ≤ |offset % (sess.vififo_size : Int) - x.offset|) →
      |offset % (sess.vififo_size : Int) - m.offset| < 4096 →
      (amvdec_dst_buf_done_offset sess vbuf offset field).timestamps
        = pre.filter (fun e =>
            decide (¬ (0 < offset % (sess.vififo_size : Int) - e.offset ∨
              offset % (sess.vififo_size : Int) - e.offset
                < -((sess.vififo_size : Int) / 2)))) ++ post) ∧
    ((∀ x ∈ sess.timestamps, 4096 ≤ |offset % (sess.vififo_size : Int) - x.offset|) →
      (amvdec_dst_buf_done_offset sess vbuf offset field).timestamps
        = sess.timestamps.filter (fun e =>
            decide (¬ (0 < offset % (sess.vififo_size : Int) - e.offset ∨
              offset % (sess.vififo_size : Int) - e.offset
                < -((sess.vififo_size : Int) / 2)))) ∧
      (amvdec_dst_buf_done_offset sess vbuf offset field).timestamps
        = sess.timestamps.filter (fun e =>
            decide (-((sess.vififo_size : Int) / 2)
                ≤ offset % (sess.vififo_size : Int) - e.offset ∧
              offset % (sess.vififo_size : Int) - e.offset ≤ -4096))) := by
  have hq := reduce_offset_eq offset sess.vififo_size hoff0 hoff1
  obtain ⟨hq0, hq1⟩ := reduce_offset_range offset sess.vififo_size hoff0 hoff1
  have hunf := dst_buf_done_offset_unfold sess vbuf offset field
  rw [hq] at hunf
  simp only at hunf
  have hnear : ∀ x ∈ sess.timestamps,
      (within_wiggle (ts_delta (offset % (sess.vififo_size : Int)) x) = true ↔
        |offset % (sess.vififo_size : Int) - x.offset| < 4096) :=
    fun x hx => within_wiggle_iff _ x hq0 hq1 (hled x hx).1 (hled x hx).2
  have hfar : ∀ x ∈ sess.timestamps,
      4096 ≤ |offset % (sess.vififo_size : Int) - x.offset| →
      within_wiggle (ts_delta (offset % (sess.vififo_size : Int)) x) = false := by
    intro x hx h
    rcases hb : within_wiggle (ts_delta (offset % (sess.vififo_size : Int)) x) with _ | _
    · rfl
    · exact absurd ((hnear x hx).mp hb) (not_lt.mpr h)
  constructor
  · intro pre m post hl hpre hm
    have hpremem : ∀ x ∈ pre, x ∈ sess.timestamps := fun x hx => by
      rw [hl]
      exact List.mem_append_left _ hx
    have hmmem : m ∈ sess.timestamps := by
      rw [hl]
      exact List.mem_append_right _ (List.mem_cons_self _ _)
    obtain ⟨hkept, hfound, hrest⟩ := offset_scan_walk_at_match
      (offset % (sess.vififo_size : Int)) (half_vififo sess.vififo_size) pre m post
      sess.esparser_queued_bufs (fun x hx => hfar x (hpremem x hx) (hpre x hx))
      ((hnear m hmmem).mpr hm)
    rw [← hl] at hkept hfound hrest
    rcases hunf with ⟨hnone, -⟩ | ⟨m2, -, heq⟩
    · rw [hnone] at hfound
      cases hfound
    · rw [heq, dst_buf_done_timestamps]
      simp only
      rw [hkept, hrest, stale_filter_eq _ _ pre hq0 hq1 hsize1
        (fun e he => hled e (hpremem e he))]
  · intro hall
    obtain ⟨hkept, hfound⟩ := offset_scan_walk_no_match
      (offset % (sess.vififo_size : Int)) (half_vififo sess.vififo_size) sess.timestamps
      sess.esparser_queued_bufs (fun x hx => hfar x hx (hall x hx))
    have hts : (amvdec_dst_buf_done_offset sess vbuf offset field).timestamps
        = sess.timestamps.filter (fun e =>
            decide (¬ (0 < offset % (sess.vififo_size : Int) - e.offset ∨
              offset % (sess.vififo_size : Int) - e.offset
                < -((sess.vififo_size : Int) / 2)))) := by
      rcases hunf with ⟨-, heq⟩ | ⟨m2, hm2, -⟩
      · rw [heq]
        simp only [v4l2_m2m_buf_done]
        rw [hkept, stale_filter_eq _ _ _ hq0 hq1 hsize1 hled]
      · rw [hfound] at hm2
        cases hm2
    refine ⟨hts, ?_⟩
    rw [hts]
    apply List.filter_congr
    intro e he
    have hfar2 := hall e he
    rw [le_abs'] at hfar2
    by_cases hk : (-((sess.vififo_size : Int) / 2)
          ≤ offset % (sess.vififo_size : Int) - e.offset ∧
        offset % (sess.vififo_size : Int) - e.offset ≤ -4096)
    · rw [decide_eq_true hk, decide_eq_true]
      intro h
      rcases h with h | h <;> omega
    · rw [decide_eq_false hk, decide_eq_false]
      intro h
      apply hk
      constructor
      · by_contra h2
        exact h (Or.inr (by omega))
      · rcases hfar2 with h2 | h2
        · exact h2
        · exact absurd (Or.inl (by omega)) h

/-- Instance of C19: entries at offsets 0, 20000 and 90000, completion reported at offset
9000; only the entry at offset 20000 is left. -/
theorem dst_buf_done_offset_evicts_witness :
    (amvdec_dst_buf_done_offset (sample_session 100000 [⟨1, 0⟩, ⟨2, 20000⟩, ⟨3, 90000⟩])
        (sample_buffer 0) 9000 .NONE).timestamps
      = (sample_session 100000 [⟨1, 0⟩, ⟨2, 20000⟩, ⟨3, 90000⟩]).timestamps.filter
        (fun e => decide (-(((sample_session 100000
            [⟨1, 0⟩, ⟨2, 20000⟩, ⟨3, 90000⟩]).vififo_size : Int) / 2)
            ≤ (9000 : Int) % ((sample_session 100000
              [⟨1, 0⟩, ⟨2, 20000⟩, ⟨3, 90000⟩]).vififo_size : Int) - e.offset ∧
          (9000 : Int) % ((sample_session 100000
              [⟨1, 0⟩, ⟨2, 20000⟩, ⟨3, 90000⟩]).vififo_size : Int) - e.offset ≤ -4096)) :=
  ((dst_buf_done_offset_evicts
      (sample_session 100000 [⟨1, 0⟩, ⟨2, 20000⟩, ⟨3, 90000⟩]) (sample_buffer 0) 9000 .NONE
      (by decide) (by decide) (by decide) (by decide) (by decide)).2 (by decide)).2

/-! ## The pending-buffer counter -/

theorem atomic_dec_eq (c : Int) (h0 : -2147483648 < c) (h1 : c < 2147483648) :
    atomic_dec c = c - 1 := by
  unfold atomic_dec
  exact toS32_of_range _ (by omega) (by omega)

/-- The scan decrements the counter once per entry it unlinks, as long as the counter does
not wrap. -/
theorem offset_scan_walk_count (q half : Int) (l : List amvdec_timestamp) (c : Int)
    (h1 : c < 2147483648) (h0 : -2147483648 + (l.length : Int) ≤ c) :
    (offset_scan_walk q half l c).queued + (l.length : Int)
      = c + ((offset_scan_walk q half l c).kept.length : Int)
          + ((offset_scan_walk q half l c).rest.length : Int)
          + ((offset_scan_walk q half l c).found.toList.length : Int) := by
  induction l generalizing c with
  | nil => simp [offset_scan_walk]
  | cons tmp n ih =>
    simp only [List.length_cons, Nat.cast_add, Nat.cast_one] at h0 ⊢
    by_cases hw : within_wiggle (ts_delta q tmp) = true
    · simp only [offset_scan_walk, hw, if_true, List.length_nil, Option.toList_some,
        List.length_singleton, Nat.cast_zero, Nat.cast_one]
      omega
    · have hw2 : within_wiggle (ts_delta q tmp) = false := by simpa using hw
      by_cases hs : is_stale (ts_delta q tmp) half = true
      · have hdec := atomic_dec_eq c (by omega) h1
        have hih := ih (atomic_dec c) (by rw [hdec]; omega) (by rw [hdec]; omega)
        simp only [offset_scan_walk, hw2, hs, Bool.false_eq_true, if_false, if_true]
        rw [hdec] at hih ⊢
        omega
      · have hs2 : is_stale (ts_delta q tmp) half = false := by simpa using hs
        have hih := ih c h1 (by omega)
        simp only [offset_scan_walk, hw2, hs2, Bool.false_eq_true, if_false,
          List.length_cons, Nat.cast_add, Nat.cast_one]
        omega

theorem dst_buf_done_offset_count (sess : amvdec_session) (vbuf : vb2_v4l2_buffer)
    (offset : Int) (field : v4l2_field)
    (h1 : sess.esparser_queued_bufs < 2147483648)
    (h0 : -2147483648 + (sess.timestamps.length : Int) ≤ sess.esparser_queued_bufs) :
    sess.esparser_queued_bufs
        - (amvdec_dst_buf_done_offset sess vbuf offset field).esparser_queued_bufs
      = (sess.timestamps.length : Int)
        - ((amvdec_dst_buf_done_offset sess vbuf offset field).timestamps.length : Int) := by
  have hcount := offset_scan_walk_count (reduce_offset offset sess.vififo_size)
    (half_vififo sess.vififo_size) sess.timestamps sess.esparser_queued_bufs h1 h0
  obtain ⟨pre, -, hkept, hcase⟩ := offset_scan_walk_spec
    (reduce_offset offset sess.vififo_size) (half_vififo sess.vififo_size)
    sess.timestamps sess.esparser_queued_bufs
  rcases dst_buf_done_offset_unfold sess vbuf offset field with ⟨hnone, heq⟩ | ⟨m, hm, heq⟩
  · rcases hcase with ⟨-, hrest, -⟩ | ⟨m, hm, -, -⟩
    · rw [heq]
      simp only [v4l2_m2m_buf_done]
      rw [hnone, hrest] at hcount
      simp only [List.length_nil, Option.toList_none, Nat.cast_zero] at hcount
      omega
    · rw [hnone] at hm
      cases hm
  · rcases hcase with ⟨hnone, -, -⟩ | ⟨m2, -, -, hl⟩
    · rw [hnone] at hm
      cases hm
    · rw [heq, dst_buf_done_counter, dst_buf_done_timestamps]
      simp only [List.length_append, Nat.cast_add]
      rw [hm] at hcount
      simp only [Option.toList_some, List.length_singleton, Nat.cast_one] at hcount
      have hlen : ((offset_scan_walk (reduce_offset offset sess.vififo_size)
            (half_vififo sess.vififo_size) sess.timestamps
            sess.esparser_queued_bufs).kept.length : Int)
          + ((offset_scan_walk (reduce_offset offset sess.vififo_size)
            (half_vififo sess.vififo_size) sess.timestamps
            sess.esparser_queued_bufs).rest.length : Int) + 1
          ≤ (sess.timestamps.length : Int) := by
        have hle := List.length_filter_le
          (fun x => !is_stale (ts_delta (reduce_offset offset sess.vififo_size) x)
            (half_vififo sess.vififo_size)) pre
        have hlen2 := congrArg List.length hl
        simp only [List.length_append, List.length_cons] at hlen2
        rw [hkept]
        omega
      rw [atomic_dec_eq _ (by omega) (by omega)]
      omega

theorem dst_buf_done_head_count (sess : amvdec_session) (vbuf : vb2_v4l2_buffer)
    (field : v4l2_field)
    (h1 : sess.esparser_queued_bufs < 2147483648)
    (h0 : -2147483648 + (sess.timestamps.length : Int) ≤ sess.esparser_queued_bufs) :
    sess.esparser_queued_bufs - (amvdec_dst_buf_done sess vbuf field).esparser_queued_bufs
      = (sess.timestamps.length : Int)
        - ((amvdec_dst_buf_done sess vbuf field).timestamps.length : Int) := by
  unfold amvdec_dst_buf_done
  rcases hl : sess.timestamps with _ | ⟨tmp, rest⟩
  · simp [v4l2_m2m_buf_done, hl]
  · rw [hl] at h0
    simp only [List.length_cons, Nat.cast_add, Nat.cast_one] at h0 ⊢
    rw [dst_buf_done_counter, dst_buf_done_timestamps]
    simp only
    rw [atomic_dec_eq _ (by omega) h1]
    omega

theorem rm_first_ts_count (sess : amvdec_session)
    (h1 : sess.esparser_queued_bufs < 2147483648)
    (h0 : -2147483648 + (sess.timestamps.length : Int) ≤ sess.esparser_queued_bufs) :
    sess.esparser_queued_bufs - (amvdec_rm_first_ts sess).esparser_queued_bufs
      = (sess.timestamps.length : Int)
        - ((amvdec_rm_first_ts sess).timestamps.length : Int) := by
  unfold amvdec_rm_first_ts
  rcases hl : sess.timestamps with _ | ⟨tmp, rest⟩
  · simp [hl]
  · rw [hl] at h0
    simp only [List.length_cons, Nat.cast_add, Nat.cast_one] at h0 ⊢
    rw [atomic_dec_eq _ (by omega) h1]
    omega

theorem dst_buf_done_idx_sublist (sess : amvdec_session) (buf_idx : Nat) (offset : Int)
    (field : v4l2_field) :
    (amvdec_dst_buf_done_idx sess buf_idx offset field).timestamps.Sublist
      sess.timestamps := by
  rcases dst_buf_done_idx_cases sess buf_idx offset field with
    hrm | ⟨vbuf, -, s2, -, -, -, -, hsub, herr | ⟨⟨ts, hdone⟩, -⟩⟩
  · rw [hrm]
    exact rm_first_ts_sublist sess
  · rw [herr]
    exact hsub
  · rw [hdone, dst_buf_done_timestamps]
    exact hsub

/-- C20: on every exit of `amvdec_dst_buf_done_idx` (unknown index, head removal, offset
match, offset miss) the ledger after the call is a sub-list of the ledger before it, and
the pending-buffer counter has gone down by exactly the number of entries that left the
ledger. The counter is an `s32` that does not wrap during the call. -/
theorem pending_counter_in_step (sess : amvdec_session) (buf_idx : Nat) (offset : Int)
    (field : v4l2_field)
    (h1 : sess.esparser_queued_bufs < 2147483648)
    (h0 : -2147483648 + (sess.timestamps.length : Int) ≤ sess.esparser_queued_bufs) :
    (amvdec_dst_buf_done_idx sess buf_idx offset field).timestamps.Sublist
      sess.timestamps ∧
    sess.esparser_queued_bufs
        - (amvdec_dst_buf_done_idx sess buf_idx offset field).esparser_queued_bufs
      = (sess.timestamps.length : Int)
        - ((amvdec_dst_buf_done_idx sess buf_idx offset field).timestamps.length : Int) := by
  refine ⟨dst_buf_done_idx_sublist sess buf_idx offset field, ?_⟩
  unfold amvdec_dst_buf_done_idx
  rcases v4l2_m2m_dst_buf_remove_by_idx sess.dst_bufs buf_idx with _ | ⟨vbuf, bufs⟩
  · exact rm_first_ts_count sess h1 h0
  · simp only
    split
    · exact dst_buf_done_offset_count { sess with dst_bufs := bufs } vbuf offset field h1 h0
    · exact dst_buf_done_head_count { sess with dst_bufs := bufs } vbuf field h1 h0

/-- Instance of C20: three entries, counter 3, a match at offset 4900 that evicts one entry
on its way. -/
theorem pending_counter_in_step_witness :
    (sample_session 100000 [⟨10, 0⟩, ⟨20, 5000⟩, ⟨30, 90000⟩]).esparser_queued_bufs
        - (amvdec_dst_buf_done_idx
            { sample_session 100000 [⟨10, 0⟩, ⟨20, 5000⟩, ⟨30, 90000⟩] with
              dst_bufs := [sample_buffer 0] } 0 4900 .NONE).esparser_queued_bufs
      = ((sample_session 100000 [⟨10, 0⟩, ⟨20, 5000⟩, ⟨30, 90000⟩]).timestamps.length : Int)
        - ((amvdec_dst_buf_done_idx
            { sample_session 100000 [⟨10, 0⟩, ⟨20, 5000⟩, ⟨30, 90000⟩] with
              dst_bufs := [sample_buffer 0] } 0 4900 .NONE).timestamps.length : Int) :=
  (pending_counter_in_step
    { sample_session 100000 [⟨10, 0⟩, ⟨20, 5000⟩, ⟨30, 90000⟩] with
      dst_bufs := [sample_buffer 0] } 0 4900 .NONE (by decide) (by decide)).2

/-! ## No wrap-around in the reference buffer size -/

/-- The rounded macroblock count is at most 4 x 65536. -/
theorem h264_mb_total_le (w t : Nat) (hw0 : w ≠ 0) (hw : w < 256) (ht : t < 65536) :
    ((w + 3) / 4 * 4) * ((t / w + 3) / 4 * 4) ≤ 262144 := by
  have hh : t / w * w ≤ t := Nat.div_mul_le_self t w
  have hhle : t / w ≤ t := Nat.div_le_self t w
  by_cases hsmall : w ≤ 4
  · have hA : (w + 3) / 4 * 4 = 4 := by omega
    rw [hA]
    omega
  · have hdiv : t / w ≤ t / 5 := Nat.div_le_div_left (by omega) (by norm_num)
    generalize t / w = h at *
    have hA : (w + 3) / 4 * 4 ≤ w + 3 := Nat.div_mul_le_self _ _
    have hB : (h + 3) / 4 * 4 ≤ h + 3 := Nat.div_mul_le_self _ _
    have hAB : (w + 3) / 4 * 4 * ((h + 3) / 4 * 4) ≤ (w + 3) * (h + 3) :=
      Nat.mul_le_mul hA hB
    have hexp : (w + 3) * (h + 3) = h * w + 3 * w + 3 * h + 9 := by ring
    omega

/-- The exact product behind the reference buffer size is at most `3221225472`. -/
theorem h264_ref_product_le (word : Nat) (hwidth : word % 256 ≠ 0) :
    ((word % 256 + 3) / 4 * 4) * (((word / 256 % 65536) / (word % 256) + 3) / 4 * 4)
        * 96 * (word / 16777216 % 128 + 1) ≤ 3221225472 := by
  have hw : word % 256 < 256 := Nat.mod_lt _ (by norm_num)
  have ht : word / 256 % 65536 < 65536 := Nat.mod_lt _ (by norm_num)
  have hr : word / 16777216 % 128 < 128 := Nat.mod_lt _ (by norm_num)
  have hmb := h264_mb_total_le (word % 256) (word / 256 % 65536) hwidth hw ht
  have hprod : ((word % 256 + 3) / 4 * 4) * (((word / 256 % 65536) / (word % 256) + 3) / 4 * 4)
      * 96 * (word / 16777216 % 128 + 1) ≤ 262144 * 96 * 128 :=
    Nat.mul_le_mul (Nat.mul_le_mul hmb (le_refl _)) (by omega)
  exact hprod

/-- C21: for a parsed status word with a non-zero width field the product of the rounded
width, the rounded height, 96 and the reference count plus one is at most `3221225472`,
which is below `2 ^ 32`; so the 32-bit arithmetic of `codec_h264_set_param` does not wrap
and the `ref_size` it stores is the exact product. The bound is reached by width 1, total
65535 and reference count 127. -/
theorem set_param_ref_size_no_wrap (env : vdec_env) (dma_alloc_coherent : Nat → Option Nat)
    (sess : amvdec_session) (h264 : codec_h264) (word : Nat)
    (hpriv : sess.priv = some h264)
    (hword : amvdec_read_dos sess.core env.AV_SCRATCH_1 = word)
    (hwidth : word % 256 ≠ 0) :
    ((word % 256 + 3) / 4 * 4) * (((word / 256 % 65536) / (word % 256) + 3) / 4 * 4)
        * 96 * (word / 16777216 % 128 + 1) ≤ 3221225472 ∧
    (3221225472 : Nat) < 4294967296 ∧
    (∃ s h, codec_h264_set_param env dma_alloc_coherent sess = some s ∧
      s.priv = some h ∧
      h.ref_size
        = ((word % 256 + 3) / 4 * 4) * (((word / 256 % 65536) / (word % 256) + 3) / 4 * 4)
            * 96 * (word / 16777216 % 128 + 1)) ∧
    h264_ref_size (127 * 16777216 + 65535 * 256 + 1) = 3221225472 := by
  refine ⟨h264_ref_product_le word hwidth, by norm_num, ?_, by decide⟩
  rcases set_param_unfold env dma_alloc_coherent sess h264 word hpriv hword hwidth with
    ⟨-, s, hs, -, hp⟩ | ⟨paddr, -, s, hs, hp, -⟩
  · exact ⟨s, _, hs, hp, h264_ref_size_exact word⟩
  · exact ⟨s, _, hs, hp, h264_ref_size_exact word⟩

/-- Instance of C21: the status word with width 1, total 65535 and reference count 127. -/
theorem set_param_ref_size_no_wrap_witness :
    ((2147483393 % 256 + 3) / 4 * 4)
        * (((2147483393 / 256 % 65536) / (2147483393 % 256) + 3) / 4 * 4)
        * 96 * (2147483393 / 16777216 % 128 + 1) ≤ 3221225472 ∧
    ∃ s h, codec_h264_set_param sample_env (fun _ => some 65536)
        (sample_h264_session 2147483393 []) = some s ∧
      s.priv = some h ∧
      h.ref_size
        = ((2147483393 % 256 + 3) / 4 * 4)
            * (((2147483393 / 256 % 65536) / (2147483393 % 256) + 3) / 4 * 4)
            * 96 * (2147483393 / 16777216 % 128 + 1) :=
  ⟨(set_param_ref_size_no_wrap sample_env (fun _ => some 65536)
      (sample_h264_session 2147483393 []) sample_h264 2147483393 (by rfl) (by rfl)
      (by decide)).1,
   (set_param_ref_size_no_wrap sample_env (fun _ => some 65536)
      (sample_h264_session 2147483393 []) sample_h264 2147483393 (by rfl) (by rfl)
      (by decide)).2.2.1⟩

/-! ## Pixel aspect ratio -/

/-- C22: when `height * dar_num` and `width * dar_den` are positive and below `2 ^ 32`,
`amvdec_set_par_from_dar` stores a numerator and a denominator that are coprime and
positive, fit 32 bits, and represent the fraction `(height * dar_num) / (width * dar_den)`:
the stored numerator times `width * dar_den` equals the stored denominator times
`height * dar_num`. Nothing else in the session changes. -/
theorem set_par_from_dar_lowest_terms (sess : amvdec_session) (dar_num dar_den : Nat)
    (hn0 : 0 < sess.height * dar_num) (hn1 : sess.height * dar_num < 4294967296)
    (hd0 : 0 < sess.width * dar_den) (hd1 : sess.width * dar_den < 4294967296) :
    Nat.Coprime (amvdec_set_par_from_dar sess dar_num dar_den).pixelaspect.1
      (amvdec_set_par_from_dar sess dar_num dar_den).pixelaspect.2 ∧
    (amvdec_set_par_from_dar sess dar_num dar_den).pixelaspect.1 * (sess.width * dar_den)
      = (amvdec_set_par_from_dar sess dar_num dar_den).pixelaspect.2
        * (sess.height * dar_num) ∧
    0 < (amvdec_set_par_from_dar sess dar_num dar_den).pixelaspect.1 ∧
    0 < (amvdec_set_par_from_dar sess dar_num dar_den).pixelaspect.2 ∧
    (amvdec_set_par_from_dar sess dar_num dar_den).pixelaspect.1 < 4294967296 ∧
    (amvdec_set_par_from_dar sess dar_num dar_den).pixelaspect.2 < 4294967296 ∧
    amvdec_set_par_from_dar sess dar_num dar_den
      = { sess with pixelaspect :=
            ((sess.height * dar_num) / Nat.gcd (sess.height * dar_num) (sess.width * dar_den),
             (sess.width * dar_den) / Nat.gcd (sess.height * dar_num)
               (sess.width * dar_den)) } := by
  have heq : amvdec_set_par_from_dar sess dar_num dar_den
      = { sess with pixelaspect :=
            ((sess.height * dar_num) / Nat.gcd (sess.height * dar_num) (sess.width * dar_den),
             (sess.width * dar_den) / Nat.gcd (sess.height * dar_num)
               (sess.width * dar_den)) } := by
    unfold amvdec_set_par_from_dar gcd
    simp only [Nat.mod_eq_of_lt hn1, Nat.mod_eq_of_lt hd1]
  rw [heq]
  simp only
  generalize sess.height * dar_num = n at *
  generalize sess.width * dar_den = d at *
  have hg : 0 < Nat.gcd n d := Nat.gcd_pos_of_pos_left d hn0
  have hn : n / Nat.gcd n d * Nat.gcd n d = n := Nat.div_mul_cancel (Nat.gcd_dvd_left n d)
  have hd : d / Nat.gcd n d * Nat.gcd n d = d := Nat.div_mul_cancel (Nat.gcd_dvd_right n d)
  have hnle : n / Nat.gcd n d ≤ n := Nat.div_le_self _ _
  have hdle : d / Nat.gcd n d ≤ d := Nat.div_le_self _ _
  refine ⟨Nat.coprime_div_gcd_div_gcd hg, ?_, ?_, ?_, by omega, by omega, trivial⟩
  · calc n / Nat.gcd n d * d
        = n / Nat.gcd n d * (d / Nat.gcd n d * Nat.gcd n d) := by rw [hd]
      _ = d / Nat.gcd n d * (n / Nat.gcd n d * Nat.gcd n d) := by ring
      _ = d / Nat.gcd n d * n := by rw [hn]
  · exact Nat.div_pos (Nat.le_of_dvd hn0 (Nat.gcd_dvd_left n d)) hg
  · exact Nat.div_pos (Nat.le_of_dvd hd0 (Nat.gcd_dvd_right n d)) hg

/-- Instance of C22: a 1920x1080 frame with display aspect ratio 16:9 has square
pixels. -/
theorem set_par_from_dar_lowest_terms_witness :
    Nat.Coprime (amvdec_set_par_from_dar (sample_session 100000 []) 16 9).pixelaspect.1
      (amvdec_set_par_from_dar (sample_session 100000 []) 16 9).pixelaspect.2 ∧
    (amvdec_set_par_from_dar (sample_session 100000 []) 16 9).pixelaspect.1
        * ((sample_session 100000 []).width * 9)
      = (amvdec_set_par_from_dar (sample_session 100000 []) 16 9).pixelaspect.2
        * ((sample_session 100000 []).height * 16) :=
  ⟨(set_par_from_dar_lowest_terms (sample_session 100000 []) 16 9
      (by decide) (by decide) (by decide) (by decide)).1,
   (set_par_from_dar_lowest_terms (sample_session 100000 []) 16 9
      (by decide) (by decide) (by decide) (by decide)).2.1⟩

end Vdec
